import Mathlib

/-!
# cabl: MIDI message codec and Maschine MK1 display codec

A shallow embedding of `inc/midi/MidiMessage.h` and
`src/gfx/displays/GDisplayMaschineMK1.cpp`.

Conventions of the embedding:

* a `uint8_t` / `uint16_t` / `int8_t` value is a `Nat` / `Int`; every place where the C++
  code converts to a narrower unsigned type is written as an explicit `% 256` / `% 65536`;
* `tRawData`, the raw byte sequence, is a `List Nat`;
* a C++ constructor `T(...)` is the function `T.ctor`;
* the class hierarchy `MidiMessage` / `MidiMessageBase<MsgType>` / `NoteOff` ... is flattened to
  one record holding the members `m_type` and `m_data`; the concrete class of an object is
  determined by `m_type`, because every concrete class instantiates the template with its own
  `MsgType`.
-/

namespace sl
namespace midi

/-- Modelled from the spec: the type `tRawData` is declared in `util/Types.h`, outside the
sources at hand; the specification describes it as the raw byte sequence of a message, and the
code indexes it, asks its size and appends to it. -/
abbrev tRawData := List Nat

/-- The macro `M_MIDI_BYTE(data)`, that is `static_cast<uint8_t>(0x7F & data)`. -/
def M_MIDI_BYTE (data : Nat) : Nat := (0x7F &&& data) % 256

/-! ## MidiNote -/

/-- The enumeration `MidiNote::Name`; the flat spellings are aliases of the sharp ones. -/
inductive MidiNote.Name where
  | C | CSharp | D | DSharp | E | F | FSharp | G | GSharp | A | ASharp | B
deriving DecidableEq

namespace MidiNote.Name

/-- The underlying `uint8_t` value of a note name. -/
def toUInt8 : MidiNote.Name → Nat
  | C => 0 | CSharp => 1 | D => 2 | DSharp => 3 | E => 4 | F => 5
  | FSharp => 6 | G => 7 | GSharp => 8 | A => 9 | ASharp => 10 | B => 11

def DFlat : MidiNote.Name := CSharp
def EFlat : MidiNote.Name := DSharp
def GFlat : MidiNote.Name := FSharp
def AFlat : MidiNote.Name := GSharp
def BFlat : MidiNote.Name := ASharp

end MidiNote.Name

/-- The class `MidiNote`: its two private members. -/
structure MidiNote where
  m_note : MidiNote.Name
  m_octave : Int
deriving DecidableEq

namespace MidiNote

/-- The constructor `MidiNote(Name note_, int8_t octave_)`:
`m_octave(std::min<int8_t>(9, std::max<int8_t>(-1, octave_)))`. -/
def ctor (note_ : MidiNote.Name) (octave_ : Int) : MidiNote :=
  { m_note := note_, m_octave := min 9 (max (-1) octave_) }

/-- The method `setNote`. -/
def setNote (self : MidiNote) (note_ : MidiNote.Name) : MidiNote :=
  { self with m_note := note_ }

/-- The method `value`: the `int` expression `(m_octave+1)*12 + static_cast<uint8_t>(m_note)`
converted to the `uint8_t` return type. -/
def value (self : MidiNote) : Nat :=
  (((self.m_octave + 1) * 12 + (self.m_note.toUInt8 : Int)) % 256).toNat

end MidiNote

/-! ## MidiMessage -/

/-- The enumeration `MidiMessage::Type`. -/
inductive MidiMessage.MsgType where
  | NoteOff | NoteOn | PolyPressure | ControlChange | ProgramChange | ChannelPressure
  | PitchBend | SysexStart | MTC | SongPosition | SongSelect | TuneRequest | SysexEnd
  | TimingClock | Start | Continue | Stop | ActiveSensing | Reset
deriving DecidableEq

/-- The underlying `uint8_t` value of a message type. -/
def MidiMessage.MsgType.toUInt8 : MidiMessage.MsgType → Nat
  | .NoteOff => 0x80 | .NoteOn => 0x90 | .PolyPressure => 0xA0 | .ControlChange => 0xB0
  | .ProgramChange => 0xC0 | .ChannelPressure => 0xD0 | .PitchBend => 0xE0
  | .SysexStart => 0xF0 | .MTC => 0xF1 | .SongPosition => 0xF2 | .SongSelect => 0xF3
  | .TuneRequest => 0xF6 | .SysexEnd => 0xF7 | .TimingClock => 0xF8 | .Start => 0xFA
  | .Continue => 0xFB | .Stop => 0xFC | .ActiveSensing => 0xFE | .Reset => 0xFF

/-- The enumeration `MidiMessage::Channel`, as its underlying `uint8_t` value: the code moves
between the two with `static_cast` in both directions. -/
structure MidiMessage.Channel where
  val : Nat
deriving DecidableEq

namespace MidiMessage.Channel

def Ch1 : MidiMessage.Channel := ⟨0⟩
def Ch2 : MidiMessage.Channel := ⟨1⟩
def Ch3 : MidiMessage.Channel := ⟨2⟩
def Ch4 : MidiMessage.Channel := ⟨3⟩
def Ch5 : MidiMessage.Channel := ⟨4⟩
def Ch6 : MidiMessage.Channel := ⟨5⟩
def Ch7 : MidiMessage.Channel := ⟨6⟩
def Ch8 : MidiMessage.Channel := ⟨7⟩
def Ch9 : MidiMessage.Channel := ⟨8⟩
def Ch10 : MidiMessage.Channel := ⟨9⟩
def Ch11 : MidiMessage.Channel := ⟨10⟩
def Ch12 : MidiMessage.Channel := ⟨11⟩
def Ch13 : MidiMessage.Channel := ⟨12⟩
def Ch14 : MidiMessage.Channel := ⟨13⟩
def Ch15 : MidiMessage.Channel := ⟨14⟩
def Ch16 : MidiMessage.Channel := ⟨15⟩
def Undefined : MidiMessage.Channel := ⟨16⟩

/-- The value is one of the seventeen enumerators `Ch1` .. `Ch16`, `Undefined`. -/
def isEnumerator (c : MidiMessage.Channel) : Prop := c.val ≤ 16

/-- The value is one of the sixteen channels `Ch1` .. `Ch16` (ordinal 0 .. 15). -/
def isChannel (c : MidiMessage.Channel) : Prop := c.val < 16

instance (c : MidiMessage.Channel) : Decidable c.isEnumerator := by
  unfold isEnumerator; infer_instance

instance (c : MidiMessage.Channel) : Decidable c.isChannel := by
  unfold isChannel; infer_instance

end MidiMessage.Channel

/-- A message object: `MidiMessage::m_type` and `MidiMessageBase::m_data`. -/
structure MidiMessage where
  m_type : MidiMessage.MsgType
  m_data : tRawData
deriving DecidableEq

open MidiMessage (MsgType Channel)

namespace MidiMessage

/-- The accessor `getType`. -/
def getType (self : MidiMessage) : MsgType := self.m_type

/-- The accessor `data`. -/
def data (self : MidiMessage) : tRawData := self.m_data

end MidiMessage

namespace MidiMessageBase

/-- The constructor `MidiMessageBase<MsgType>(channel_, data_)`: `m_data` starts as the single
byte `static_cast<uint8_t>(channel_ | getType())` and `data_` is appended to it. -/
def ctor (msgType : MsgType) (channel_ : Channel) (data_ : tRawData) : MidiMessage :=
  { m_type := msgType
    m_data := [(channel_.val ||| msgType.toUInt8) % 256] ++ data_ }

/-- The method `getChannel`. -/
def getChannel (self : MidiMessage) : Channel :=
  match self.m_data with
  | [] => Channel.Undefined
  | b :: _ => ⟨b &&& 0x0F⟩

/-- The comparison `operator ==`: same size and `std::equal` over the bytes. -/
def eq (self other_ : MidiMessage) : Bool :=
  self.m_data.length == other_.m_data.length && self.m_data == other_.m_data

end MidiMessageBase

/-! The concrete message classes. An accessor `data()[i]` is `m_data[i]?`. -/

namespace NoteOff
def ctor (channel_ : Channel) (note_ velocity_ : Nat) : MidiMessage :=
  MidiMessageBase.ctor .NoteOff channel_ [M_MIDI_BYTE note_, M_MIDI_BYTE velocity_]
def getNote (self : MidiMessage) : Option Nat := self.data[1]?
def getVelocity (self : MidiMessage) : Option Nat := self.data[2]?
end NoteOff

namespace NoteOn
def ctor (channel_ : Channel) (note_ velocity_ : Nat) : MidiMessage :=
  MidiMessageBase.ctor .NoteOn channel_ [M_MIDI_BYTE note_, M_MIDI_BYTE velocity_]
def getNote (self : MidiMessage) : Option Nat := self.data[1]?
def getVelocity (self : MidiMessage) : Option Nat := self.data[2]?
end NoteOn

namespace PolyPressure
def ctor (channel_ : Channel) (note_ pressure_ : Nat) : MidiMessage :=
  MidiMessageBase.ctor .PolyPressure channel_ [M_MIDI_BYTE note_, M_MIDI_BYTE pressure_]
def getNote (self : MidiMessage) : Option Nat := self.data[1]?
def getPressure (self : MidiMessage) : Option Nat := self.data[2]?
end PolyPressure

namespace ControlChange
def ctor (channel_ : Channel) (control_ value_ : Nat) : MidiMessage :=
  MidiMessageBase.ctor .ControlChange channel_ [M_MIDI_BYTE control_, M_MIDI_BYTE value_]
def getControl (self : MidiMessage) : Option Nat := self.data[1]?
def getValue (self : MidiMessage) : Option Nat := self.data[2]?
end ControlChange

namespace ProgramChange
def ctor (channel_ : Channel) (program_ : Nat) : MidiMessage :=
  MidiMessageBase.ctor .ProgramChange channel_ [M_MIDI_BYTE program_]
def getProgram (self : MidiMessage) : Option Nat := self.data[1]?
end ProgramChange

namespace ChannelPressure
def ctor (channel_ : Channel) (pressure_ : Nat) : MidiMessage :=
  MidiMessageBase.ctor .ChannelPressure channel_ [M_MIDI_BYTE pressure_]
def getPressure (self : MidiMessage) : Option Nat := self.data[1]?
end ChannelPressure

namespace PitchBend
/-- The constructor `PitchBend(channel_, uint8_t pitchL_, uint8_t pitchH_)`. -/
def ctor (channel_ : Channel) (pitchL_ pitchH_ : Nat) : MidiMessage :=
  MidiMessageBase.ctor .PitchBend channel_ [M_MIDI_BYTE pitchL_, M_MIDI_BYTE pitchH_]
/-- The constructor `PitchBend(channel_, uint16_t pitch_)`. The second byte is the macro applied
to the text `pitch_ >> 7`, which expands to `0x7F & pitch_ >> 7`; the shift binds tighter than
the conjunction. -/
def ctor16 (channel_ : Channel) (pitch_ : Nat) : MidiMessage :=
  MidiMessageBase.ctor .PitchBend channel_ [M_MIDI_BYTE pitch_, M_MIDI_BYTE (pitch_ >>> 7)]
/-- The method `getPitch`: `static_cast<uint16_t>(data()[1] | (data()[2] << 7))`. -/
def getPitch (self : MidiMessage) : Option Nat := do
  let d1 ← self.data[1]?
  let d2 ← self.data[2]?
  pure ((d1 ||| (d2 <<< 7)) % 65536)
end PitchBend

/-! ## parseMidiMessage -/

/-- What a call of `parseMidiMessage` ends with: a pointer to a new message, an explicit
`nullptr`, or control reaching the closing brace of the function without any `return`. -/
inductive ParseResult where
  | message (m : MidiMessage)
  | nullptr
  | noReturn
deriving DecidableEq

/-- The function `parseMidiMessage`. A read `data_[i]` is `data_.getD i 0`; each one is guarded,
as in the source, by a test of `length`. The `switch` has no `default`: a `type` that matches no
`case` leaves the `switch`, and like the empty `else` branch it then reaches the end of the
function. -/
def parseMidiMessage (data_ : tRawData) : ParseResult :=
  let length := data_.length
  if length < 1 then
    .nullptr
  else
    let status := data_.getD 0 0
    if status < 0x80 ∨ status = 0xF4 ∨ status = 0xF5 ∨ status = 0xF9 ∨ status = 0xFD then
      .nullptr
    else if status < 0xF0 then
      let type := status &&& 0xF0
      let channel : Channel := ⟨status &&& 0x0F⟩
      if type = MsgType.NoteOff.toUInt8 then
        if length > 2 then .message (NoteOff.ctor channel (data_.getD 1 0) (data_.getD 2 0))
        else .nullptr
      else if type = MsgType.NoteOn.toUInt8 then
        if length > 2 then .message (NoteOn.ctor channel (data_.getD 1 0) (data_.getD 2 0))
        else .nullptr
      else if type = MsgType.PolyPressure.toUInt8 then
        if length > 2 then .message (PolyPressure.ctor channel (data_.getD 1 0) (data_.getD 2 0))
        else .nullptr
      else if type = MsgType.ControlChange.toUInt8 then
        if length > 2 then .message (ControlChange.ctor channel (data_.getD 1 0) (data_.getD 2 0))
        else .nullptr
      else if type = MsgType.ProgramChange.toUInt8 then
        if length > 1 then .message (ProgramChange.ctor channel (data_.getD 1 0))
        else .nullptr
      else if type = MsgType.ChannelPressure.toUInt8 then
        if length > 1 then .message (ChannelPressure.ctor channel (data_.getD 1 0))
        else .nullptr
      else if type = MsgType.PitchBend.toUInt8 then
        if length > 2 then .message (PitchBend.ctor channel (data_.getD 1 0) (data_.getD 2 0))
        else .nullptr
      else
        .noReturn
    else
      .noReturn

/-! ## MidiMessageListener and processMidi -/

/-- A callback member of the listener: a `std::function`, which may be empty (`none`). Calling
it is modelled as a transformation of the state `σ` of the surrounding program. -/
abbrev tCb (σ : Type) := Option (MidiMessage → σ → σ)

/-- The class `MidiMessageListener`: its seven callback members, all empty by default. -/
structure MidiMessageListener (σ : Type) where
  m_cbNoteOff : tCb σ := none
  m_cbNoteOn : tCb σ := none
  m_cbPolyPressure : tCb σ := none
  m_cbControlChange : tCb σ := none
  m_cbProgramChange : tCb σ := none
  m_cbChannelPressure : tCb σ := none
  m_cbPitchBend : tCb σ := none

namespace MidiMessageListener

variable {σ : Type}

def setCallbackNoteOff (self : MidiMessageListener σ) (cbNoteOff_ : tCb σ) :
    MidiMessageListener σ := { self with m_cbNoteOff := cbNoteOff_ }
def setCallbackNoteOn (self : MidiMessageListener σ) (cbNoteOn_ : tCb σ) :
    MidiMessageListener σ := { self with m_cbNoteOn := cbNoteOn_ }
def setCallbackPolyPressure (self : MidiMessageListener σ) (cbPolyPressure_ : tCb σ) :
    MidiMessageListener σ := { self with m_cbPolyPressure := cbPolyPressure_ }
def setCallbackControlChangee (self : MidiMessageListener σ) (cbControlChange_ : tCb σ) :
    MidiMessageListener σ := { self with m_cbControlChange := cbControlChange_ }
def setCallbackProgramChang (self : MidiMessageListener σ) (cbProgramChange_ : tCb σ) :
    MidiMessageListener σ := { self with m_cbProgramChange := cbProgramChange_ }
def setCallbackChannelPressure (self : MidiMessageListener σ) (cbChannelPressure_ : tCb σ) :
    MidiMessageListener σ := { self with m_cbChannelPressure := cbChannelPressure_ }
def setCallbackPitchBend (self : MidiMessageListener σ) (cbPitchBend_ : tCb σ) :
    MidiMessageListener σ := { self with m_cbPitchBend := cbPitchBend_ }

/-- Invoke a callback member if it is not empty. -/
def invoke (cb : tCb σ) (msg_ : MidiMessage) (s : σ) : σ :=
  match cb with
  | some f => f msg_ s
  | none => s

/-! The seven overloads of `callbackNoteOff`; the source gives all of them this one name and
C++ selects among them by the class of the message pointer. -/

/-- The overload `callbackNoteOff(tPtr<NoteOff>)`. -/
def callbackNoteOff (self : MidiMessageListener σ) (msg_ : MidiMessage) (s : σ) : σ :=
  invoke self.m_cbNoteOff msg_ s
/-- The overload `callbackNoteOff(tPtr<NoteOn>)`. -/
def callbackNoteOff_NoteOn (self : MidiMessageListener σ) (msg_ : MidiMessage) (s : σ) : σ :=
  invoke self.m_cbNoteOn msg_ s
/-- The overload `callbackNoteOff(tPtr<PolyPressure>)`. -/
def callbackNoteOff_PolyPressure (self : MidiMessageListener σ) (msg_ : MidiMessage) (s : σ) :
    σ := invoke self.m_cbPolyPressure msg_ s
/-- The overload `callbackNoteOff(tPtr<ControlChange>)`. -/
def callbackNoteOff_ControlChange (self : MidiMessageListener σ) (msg_ : MidiMessage) (s : σ) :
    σ := invoke self.m_cbControlChange msg_ s
/-- The overload `callbackNoteOff(tPtr<ProgramChange>)`. -/
def callbackNoteOff_ProgramChange (self : MidiMessageListener σ) (msg_ : MidiMessage) (s : σ) :
    σ := invoke self.m_cbProgramChange msg_ s
/-- The overload `callbackNoteOff(tPtr<ChannelPressure>)`. -/
def callbackNoteOff_ChannelPressure (self : MidiMessageListener σ) (msg_ : MidiMessage)
    (s : σ) : σ := invoke self.m_cbChannelPressure msg_ s
/-- The overload `callbackNoteOff(tPtr<PitchBend>)`. -/
def callbackNoteOff_PitchBend (self : MidiMessageListener σ) (msg_ : MidiMessage) (s : σ) : σ :=
  invoke self.m_cbPitchBend msg_ s

end MidiMessageListener

/-- The function `processMidi`, run from program state `s`. The result is `none` when
`parseMidiMessage` ended without returning a value, so that `message` has no defined content.
The `switch` over `message->getType()` has the single `case` NoteOff; for every other type
control leaves the `switch` and the message is destroyed with `message`. -/
def processMidi {σ : Type} (pListener_ : MidiMessageListener σ) (data_ : tRawData) (s : σ) :
    Option σ :=
  match parseMidiMessage data_ with
  | .noReturn => none
  | .nullptr => some s
  | .message message =>
    match message.getType with
    | .NoteOff => some (pListener_.callbackNoteOff message s)
    | _ => some s

/-- One entry of a call log: which callback member ran, and on which message. -/
abbrev CallLog := List (MsgType × MidiMessage)

/-- A listener with a consumer registered for each of the seven kinds; each consumer appends
its own kind and the message it received to the call log. -/
def recordingListener : MidiMessageListener CallLog :=
  ((((((({} : MidiMessageListener CallLog).setCallbackNoteOff
      (some fun m log => log ++ [(.NoteOff, m)])).setCallbackNoteOn
      (some fun m log => log ++ [(.NoteOn, m)])).setCallbackPolyPressure
      (some fun m log => log ++ [(.PolyPressure, m)])).setCallbackControlChangee
      (some fun m log => log ++ [(.ControlChange, m)])).setCallbackProgramChang
      (some fun m log => log ++ [(.ProgramChange, m)])).setCallbackChannelPressure
      (some fun m log => log ++ [(.ChannelPressure, m)])).setCallbackPitchBend
      (some fun m log => log ++ [(.PitchBend, m)])

/-- The clamp of the specification's note formula. -/
def clamp (o lo hi : Int) : Int := if o < lo then lo else if hi < o then hi else o

/-- A call of one of the concrete message constructors, with its arguments. -/
inductive ConcreteCtor where
  | NoteOff (channel_ : Channel) (note_ velocity_ : Nat)
  | NoteOn (channel_ : Channel) (note_ velocity_ : Nat)
  | PolyPressure (channel_ : Channel) (note_ pressure_ : Nat)
  | ControlChange (channel_ : Channel) (control_ value_ : Nat)
  | ProgramChange (channel_ : Channel) (program_ : Nat)
  | ChannelPressure (channel_ : Channel) (pressure_ : Nat)
  | PitchBend (channel_ : Channel) (pitchL_ pitchH_ : Nat)
  | PitchBend16 (channel_ : Channel) (pitch_ : Nat)

namespace ConcreteCtor

/-- The message the constructor call builds. -/
def build : ConcreteCtor → MidiMessage
  | .NoteOff c a b => sl.midi.NoteOff.ctor c a b
  | .NoteOn c a b => sl.midi.NoteOn.ctor c a b
  | .PolyPressure c a b => sl.midi.PolyPressure.ctor c a b
  | .ControlChange c a b => sl.midi.ControlChange.ctor c a b
  | .ProgramChange c a => sl.midi.ProgramChange.ctor c a
  | .ChannelPressure c a => sl.midi.ChannelPressure.ctor c a
  | .PitchBend c a b => sl.midi.PitchBend.ctor c a b
  | .PitchBend16 c p => sl.midi.PitchBend.ctor16 c p

/-- The channel argument of the constructor call. -/
def channel : ConcreteCtor → Channel
  | .NoteOff c _ _ => c
  | .NoteOn c _ _ => c
  | .PolyPressure c _ _ => c
  | .ControlChange c _ _ => c
  | .ProgramChange c _ => c
  | .ChannelPressure c _ => c
  | .PitchBend c _ _ => c
  | .PitchBend16 c _ => c

/-- The channel argument is one of `Ch1` .. `Ch16`, or it is `Undefined` and the kind is one
of NoteOn, ControlChange, ChannelPressure, PitchBend. -/
def channelKeepsKind (a : ConcreteCtor) : Prop :=
  a.channel.isChannel ∨
    (a.channel = Channel.Undefined ∧
      a.build.getType ∈ [MsgType.NoteOn, MsgType.ControlChange, MsgType.ChannelPressure,
        MsgType.PitchBend])

end ConcreteCtor

/-- The acceptance condition in the words of the specification: the first byte `s` lies in
`0x80 .. 0xEF`, the sequence has at least three bytes when `s & 0xF0` is one of NoteOff, NoteOn,
PolyPressure, ControlChange, PitchBend, and at least two when it is ProgramChange or
ChannelPressure. -/
def decodeAccepts (b : tRawData) : Prop :=
  ∃ s, b.head? = some s ∧ 0x80 ≤ s ∧ s ≤ 0xEF ∧
    (s &&& 0xF0 ∈ [MsgType.NoteOff.toUInt8, MsgType.NoteOn.toUInt8, MsgType.PolyPressure.toUInt8,
        MsgType.ControlChange.toUInt8, MsgType.PitchBend.toUInt8] → 3 ≤ b.length) ∧
    (s &&& 0xF0 ∈ [MsgType.ProgramChange.toUInt8, MsgType.ChannelPressure.toUInt8] →
        2 ≤ b.length)

/-- The kind read back from a status byte: the high nibble, with `0xF0` read as PitchBend. -/
def statusKind (s : Nat) : Nat := if s = 0xF0 then 0xE0 else s &&& 0xF0

end midi

namespace cabl

/-! ## GDisplayMaschineMK1

The floating-point expressions of the source are evaluated over integer arguments in a range
where the rounding of the machine arithmetic cannot change the truncated result, so each is
written as the integer quotient it equals:

* `(width() / 3.0f) * 2` truncated: the exact value `2w/3` is an integer or at least `1/3` away
  from one, so the result is `w * 2 / 3`;
* `(m / 255.0) * 31 + 0.5f` truncated, for a luminance byte `m`: the exact value
  `(62 m + 255) / 510` has an odd numerator and an even denominator, so it is at least `1/510`
  away from every integer, and the result is `(62 m + 255) / 510`;
* `(f / 31.0) * 255` truncated, for a five-bit field `f`: `f / 31.0` is exact for `f = 0` and
  `f = 31`, and otherwise the exact value `255 f / 31` is at least `1/31` away from every
  integer, so the result is `255 f / 31`.
-/

def kMASMK1_displayWidth : Nat := 255
def kMASMK1_displayHeight : Nat := 64
def kMASMK1_nOfDisplayDataChunks : Nat := 22

/-- Modelled from the spec: the colour class `util::ColorRGB` is declared outside the sources
at hand, and the specification consumes its luminance and blend mode as given. The display code
reaches a colour only through the operations listed here, which are taken as a parameter:
the default constructor `{}`, the constructor `{pixelValue}` from one luminance byte, `mono()`,
`transparent()`, the test `blendMode() == BlendMode::Invert`, `invert()` and `operator !=`. -/
structure ColorOps (C : Type) where
  default : C
  ofMono : Nat → C
  mono : C → Nat
  transparent : C → Bool
  blendModeIsInvert : C → Bool
  invert : C → C
  ne : C → C → Bool

/-- Modelled from the spec: the blend modes that the specification names for a colour. -/
inductive BlendMode where
  | Normal | Invert | Transparent
deriving DecidableEq

/-- Modelled from the spec: a colour reduced to what the specification says of it, a luminance
byte and a blend mode. -/
structure GrayColor where
  mono : Nat
  blendMode : BlendMode
deriving DecidableEq

/-- Modelled from the spec: the colour operations on `GrayColor`; inverting complements the
luminance byte, a colour is transparent when its blend mode says so, and two colours differ
when luminance or blend mode differ. -/
def grayOps : ColorOps GrayColor where
  default := ⟨0, .Normal⟩
  ofMono v := ⟨v, .Normal⟩
  mono c := c.mono
  transparent c := c.blendMode == .Transparent
  blendModeIsInvert c := c.blendMode == .Invert
  invert c := { c with mono := 0xFF - c.mono % 0x100 }
  ne a b := a != b

/-- The display object: the canvas buffer `buffer()` and the dirty flag of each display data
chunk. Width, height and number of chunks are the constants the constructor passes to
`GDisplay`. -/
structure GDisplayMaschineMK1 where
  buffer : List Nat
  dirtyChunks : List Bool
deriving DecidableEq

namespace GDisplayMaschineMK1

/-- Modelled from the spec: the accessor `width()` of the base class `GDisplay`, which is
outside the sources at hand; it returns the width the constructor passes on. -/
def width : Nat := kMASMK1_displayWidth
/-- Modelled from the spec: the accessor `height()` of the base class, the height the
constructor passes on. -/
def height : Nat := kMASMK1_displayHeight
/-- Modelled from the spec: the number of display data chunks the constructor passes on to
the base class. -/
def numberOfChunks : Nat := kMASMK1_nOfDisplayDataChunks

/-- The method `canvasWidthInBytesImpl`:
`static_cast<uint16_t>((width() / 3.0f) * 2)`. -/
def canvasWidthInBytesImpl : Nat := (width * 2 / 3) % 65536

/-- Modelled from the spec: the accessor `canvasWidthInBytes()` of the base class, the row
stride in bytes, which the specification has computed by the concrete display. -/
def canvasWidthInBytes : Nat := canvasWidthInBytesImpl

/-- The low eight bits of `~v` for a non-negative `int` value `v`. -/
def not8 (v : Nat) : Nat := 0xFF - v % 0x100

/-- The statement `buffer()[i] |= mask`, stored as a byte. -/
def orAt (buffer : List Nat) (i mask : Nat) : List Nat :=
  buffer.set i ((buffer.getD i 0 ||| mask) % 256)

/-- The statement `buffer()[i] &= ~(v)`: the byte is promoted to `int`, so only the low eight
bits of `~(v)` take part. -/
def andNotAt (buffer : List Nat) (i v : Nat) : List Nat :=
  buffer.set i ((buffer.getD i 0 &&& not8 v) % 256)

/-- Modelled from the spec: the base-class operation `fill`, which sets every buffer byte to
the given raw value. -/
def fill (self : GDisplayMaschineMK1) (value : Nat) : GDisplayMaschineMK1 :=
  { self with buffer := List.replicate self.buffer.length value }

/-- Modelled from the spec: the base-class operation `setDirty`, which marks the whole surface
dirty. -/
def setDirty (self : GDisplayMaschineMK1) : GDisplayMaschineMK1 :=
  { self with dirtyChunks := List.replicate numberOfChunks true }

/-- Modelled from the spec: the chunk containing row `y`, for the partition of the rows into
`numberOfChunks` equal bands. -/
def chunkOfRow (y : Nat) : Nat := y * numberOfChunks / height

/-- Modelled from the spec: the base-class operation `setDirtyChunk`, which marks the chunk
containing row `y` dirty. -/
def setDirtyChunk (self : GDisplayMaschineMK1) (y : Nat) : GDisplayMaschineMK1 :=
  { self with dirtyChunks := self.dirtyChunks.set (chunkOfRow y) true }

/-- The method `white`. -/
def white (self : GDisplayMaschineMK1) : GDisplayMaschineMK1 := (self.fill 0x00).setDirty

/-- The method `black`. -/
def black (self : GDisplayMaschineMK1) : GDisplayMaschineMK1 := (self.fill 0xff).setDirty

/-- The method `initializeImpl`: `buffer().resize(canvasWidthInBytesImpl() * height())`, new
bytes being zero, then `black()`. -/
def initializeImpl (self : GDisplayMaschineMK1) : GDisplayMaschineMK1 :=
  let n := canvasWidthInBytesImpl * height
  black { self with buffer := (self.buffer ++ List.replicate n 0).take n }

/-- The expression `static_cast<uint8_t>((mono / 255.0) * 31 + 0.5f)` of `setPixelImpl`. -/
def toLevel (mono : Nat) : Nat := ((mono * 62 + 255) / 510) % 256

/-- The expression `~(static_cast<uint8_t>((field / 31.0) * 255))` of `pixelImpl`, stored in
the `uint8_t` variable `pixelValue`. -/
def toLuminance (field : Nat) : Nat := not8 ((field * 255 / 31) % 256)

variable {C : Type}

/-- The method `pixelImpl`. In the second case the shift right binds tighter than the
disjunction, so the operands are `(b0 & 0x07) << 2` and `(b1 & 0xC0) >> 6`. -/
def pixelImpl (ops : ColorOps C) (self : GDisplayMaschineMK1) (x_ y_ : Nat) : C :=
  if x_ ≥ width ∨ y_ ≥ height then
    ops.default
  else
    let blockIndex := (x_ % 3) % 256
    let byteIndex := canvasWidthInBytes * y_ + (x_ / 3) * 2
    let pixelValue :=
      match blockIndex with
      | 0 => toLuminance ((self.buffer.getD byteIndex 0 &&& 0xF8) >>> 3)
      | 1 => toLuminance (((self.buffer.getD byteIndex 0 &&& 0x07) <<< 2) |||
                ((self.buffer.getD (byteIndex + 1) 0 &&& 0xC0) >>> 6))
      | 2 => toLuminance (self.buffer.getD (byteIndex + 1) 0 &&& 0x1F)
      | _ => 0
    ops.ofMono pixelValue

/-- The method `setPixelImpl`. -/
def setPixelImpl (ops : ColorOps C) (self : GDisplayMaschineMK1) (x_ y_ : Nat) (color_ : C)
    (bSetDirtyChunk_ : Bool) : GDisplayMaschineMK1 :=
  if x_ ≥ width ∨ y_ ≥ height ∨ ops.transparent color_ then
    self
  else
    let oldColor := pixelImpl ops self x_ y_
    let byteIndex := canvasWidthInBytes * y_ + (x_ / 3) * 2
    let pixelValue :=
      if ops.blendModeIsInvert color_ then
        let newColor := ops.invert oldColor
        toLevel (ops.mono newColor)
      else
        toLevel (ops.mono color_)
    let buffer :=
      match x_ % 3 with
      | 0 =>
        let b := orAt self.buffer byteIndex 0xF8
        andNotAt b byteIndex (pixelValue <<< 3)
      | 1 =>
        let b := orAt self.buffer byteIndex 0x07
        let b := orAt b (byteIndex + 1) 0xC0
        let b := andNotAt b byteIndex (pixelValue >>> 2)
        andNotAt b (byteIndex + 1) (pixelValue <<< 6)
      | 2 =>
        let b := orAt self.buffer (byteIndex + 1) 0x1F
        andNotAt b (byteIndex + 1) pixelValue
      | _ => self.buffer
    let self' := { self with buffer := buffer }
    if bSetDirtyChunk_ && ops.ne oldColor color_ then
      self'.setDirtyChunk y_
    else
      self'

/-- The five-bit field of pixel `(x_, y_)` in a buffer, extracted as `pixelImpl` extracts it. -/
def storedField (buffer : List Nat) (x_ y_ : Nat) : Nat :=
  let byteIndex := canvasWidthInBytes * y_ + (x_ / 3) * 2
  match x_ % 3 with
  | 0 => (buffer.getD byteIndex 0 &&& 0xF8) >>> 3
  | 1 => ((buffer.getD byteIndex 0 &&& 0x07) <<< 2) |||
      ((buffer.getD (byteIndex + 1) 0 &&& 0xC0) >>> 6)
  | _ => buffer.getD (byteIndex + 1) 0 &&& 0x1F

/-- The gray level that `setPixelImpl` packs for a colour, given the colour read before the
write: the local variable `pixelValue`. -/
def packedLevel (ops : ColorOps C) (oldColor color_ : C) : Nat :=
  if ops.blendModeIsInvert color_ then toLevel (ops.mono (ops.invert oldColor))
  else toLevel (ops.mono color_)

/-- The value of a buffer byte `b` after the two statements `|= mask` and `&= ~(v)`. -/
def packByte (b mask v : Nat) : Nat := (((b ||| mask) % 256) &&& not8 v) % 256

/-- The unpacking formula as the specification words it: complement the stored field `f` to
the level `31 - f`, then rescale `level * 255 / 31`, truncated to a byte. -/
def unpackAsSpecified (f : Nat) : Nat := ((31 - f) * 255 / 31) % 256

/-- An initialized display whose chunks have all been sent: the buffer as `black()` leaves it
and no chunk dirty. -/
def blackSentDisplay : GDisplayMaschineMK1 :=
  { buffer := List.replicate (canvasWidthInBytesImpl * height) 0xff
    dirtyChunks := List.replicate numberOfChunks false }

/-! ### The same methods with every buffer access checked

In the C++ program `buffer()[i]` with `i` outside the buffer has no defined behaviour. The
definitions below repeat `pixelImpl` and `setPixelImpl` statement by statement, with each
`buffer()[i]` looked up in the buffer: the result is `none` as soon as one index is not below
the buffer length. -/

/-- The statement `buffer()[i] |= mask`, or `none` when `i` is outside the buffer. -/
def orAtChecked (buffer : List Nat) (i mask : Nat) : Option (List Nat) :=
  match buffer[i]? with
  | some b => some (buffer.set i ((b ||| mask) % 256))
  | none => none

/-- The statement `buffer()[i] &= ~(v)`, or `none` when `i` is outside the buffer. -/
def andNotAtChecked (buffer : List Nat) (i v : Nat) : Option (List Nat) :=
  match buffer[i]? with
  | some b => some (buffer.set i ((b &&& not8 v) % 256))
  | none => none

/-- The method `pixelImpl` with checked buffer accesses. -/
def pixelImplChecked (ops : ColorOps C) (self : GDisplayMaschineMK1) (x_ y_ : Nat) :
    Option C :=
  if x_ ≥ width ∨ y_ ≥ height then
    some ops.default
  else
    let blockIndex := (x_ % 3) % 256
    let byteIndex := canvasWidthInBytes * y_ + (x_ / 3) * 2
    match blockIndex with
    | 0 =>
      match self.buffer[byteIndex]? with
      | some b0 => some (ops.ofMono (toLuminance ((b0 &&& 0xF8) >>> 3)))
      | none => none
    | 1 =>
      match self.buffer[byteIndex]?, self.buffer[byteIndex + 1]? with
      | some b0, some b1 =>
        some (ops.ofMono (toLuminance (((b0 &&& 0x07) <<< 2) ||| ((b1 &&& 0xC0) >>> 6))))
      | _, _ => none
    | 2 =>
      match self.buffer[byteIndex + 1]? with
      | some b1 => some (ops.ofMono (toLuminance (b1 &&& 0x1F)))
      | none => none
    | _ => some (ops.ofMono 0)

/-- The method `setPixelImpl` with checked buffer accesses. -/
def setPixelImplChecked (ops : ColorOps C) (self : GDisplayMaschineMK1) (x_ y_ : Nat)
    (color_ : C) (bSetDirtyChunk_ : Bool) : Option GDisplayMaschineMK1 :=
  if x_ ≥ width ∨ y_ ≥ height ∨ ops.transparent color_ then
    some self
  else
    match pixelImplChecked ops self x_ y_ with
    | none => none
    | some oldColor =>
      let byteIndex := canvasWidthInBytes * y_ + (x_ / 3) * 2
      let pixelValue :=
        if ops.blendModeIsInvert color_ then
          let newColor := ops.invert oldColor
          toLevel (ops.mono newColor)
        else
          toLevel (ops.mono color_)
      let written : Option (List Nat) :=
        match x_ % 3 with
        | 0 =>
          (orAtChecked self.buffer byteIndex 0xF8).bind fun b =>
          andNotAtChecked b byteIndex (pixelValue <<< 3)
        | 1 =>
          (orAtChecked self.buffer byteIndex 0x07).bind fun b =>
          (orAtChecked b (byteIndex + 1) 0xC0).bind fun b =>
          (andNotAtChecked b byteIndex (pixelValue >>> 2)).bind fun b =>
          andNotAtChecked b (byteIndex + 1) (pixelValue <<< 6)
        | 2 =>
          (orAtChecked self.buffer (byteIndex + 1) 0x1F).bind fun b =>
          andNotAtChecked b (byteIndex + 1) pixelValue
        | _ => some self.buffer
      match written with
      | none => none
      | some buffer =>
        let self' := { self with buffer := buffer }
        if bSetDirtyChunk_ && ops.ne oldColor color_ then
          some (self'.setDirtyChunk y_)
        else
          some self'

/-- The byte indices that the code uses at pixel `(x_, y_)` all lie inside a buffer of the
given length: the byte index itself for `x_ mod 3 = 0`, its successor otherwise (for
`x_ mod 3 = 1` both are used, and the successor is the larger one). -/
def indicesInside (length x_ y_ : Nat) : Prop :=
  (x_ % 3 = 0 → canvasWidthInBytes * y_ + (x_ / 3) * 2 < length) ∧
  (x_ % 3 ≠ 0 → canvasWidthInBytes * y_ + (x_ / 3) * 2 + 1 < length)

end GDisplayMaschineMK1

end cabl

/-! # Theorems -/

set_option maxRecDepth 100000

namespace midi

open MidiMessage (MsgType Channel)

theorem M_MIDI_BYTE_lt (d : Nat) : M_MIDI_BYTE d < 128 := by
  unfold M_MIDI_BYTE
  have h : 0x7F &&& d ≤ 0x7F := Nat.and_le_left
  omega

theorem M_MIDI_BYTE_eq (d : Nat) : M_MIDI_BYTE d = d &&& 0x7F := by
  unfold M_MIDI_BYTE
  have h : 0x7F &&& d ≤ 0x7F := Nat.and_le_left
  rw [Nat.mod_eq_of_lt (by omega), Nat.land_comm]

theorem M_MIDI_BYTE_of_le (d : Nat) (h : d ≤ 127) : M_MIDI_BYTE d = d := by
  have key : ∀ n, n < 128 → (0x7F &&& n) % 256 = n := by decide
  exact key d (by omega)

theorem status_facts : ∀ s, s < 0xF0 → 0x80 ≤ s →
    ((s &&& 0x0F) ||| (s &&& 0xF0)) % 256 = s ∧
    (s &&& 0xF0 = 0x80 ∨ s &&& 0xF0 = 0x90 ∨ s &&& 0xF0 = 0xA0 ∨ s &&& 0xF0 = 0xB0 ∨
     s &&& 0xF0 = 0xC0 ∨ s &&& 0xF0 = 0xD0 ∨ s &&& 0xF0 = 0xE0) := by
  decide

theorem channel_status_facts : ∀ c, c < 16 →
    ((c ||| 0x80) % 256 = 0x80 ||| c ∧ (c ||| 0x90) % 256 = 0x90 ||| c ∧
     (c ||| 0xA0) % 256 = 0xA0 ||| c ∧ (c ||| 0xB0) % 256 = 0xB0 ||| c ∧
     (c ||| 0xC0) % 256 = 0xC0 ||| c ∧ (c ||| 0xD0) % 256 = 0xD0 ||| c ∧
     (c ||| 0xE0) % 256 = 0xE0 ||| c) ∧
    ((0x80 ||| c) &&& 0x0F = c ∧ (0x90 ||| c) &&& 0x0F = c ∧ (0xA0 ||| c) &&& 0x0F = c ∧
     (0xB0 ||| c) &&& 0x0F = c ∧ (0xC0 ||| c) &&& 0x0F = c ∧ (0xD0 ||| c) &&& 0x0F = c ∧
     (0xE0 ||| c) &&& 0x0F = c) ∧
    ((0x80 ||| c) &&& 0xF0 = 0x80 ∧ (0x90 ||| c) &&& 0xF0 = 0x90 ∧
     (0xA0 ||| c) &&& 0xF0 = 0xA0 ∧ (0xB0 ||| c) &&& 0xF0 = 0xB0 ∧
     (0xC0 ||| c) &&& 0xF0 = 0xC0 ∧ (0xD0 ||| c) &&& 0xF0 = 0xD0 ∧
     (0xE0 ||| c) &&& 0xF0 = 0xE0) ∧
    (0x80 ≤ 0x80 ||| c ∧ 0x80 ||| c < 0xF0) ∧ (0x80 ≤ 0x90 ||| c ∧ 0x90 ||| c < 0xF0) ∧
    (0x80 ≤ 0xA0 ||| c ∧ 0xA0 ||| c < 0xF0) ∧ (0x80 ≤ 0xB0 ||| c ∧ 0xB0 ||| c < 0xF0) := by
  decide

/-- The decoder on a status byte in the channel-voice range, spelled out by the value of the
high nibble and the number of bytes that follow. -/
theorem parse_channel_voice (s : Nat) (rest : List Nat) (h1 : 0x80 ≤ s) (h2 : s < 0xF0) :
    parseMidiMessage (s :: rest) =
      if s &&& 0xF0 = 0x80 then
        match rest with
        | x :: y :: _ => .message (NoteOff.ctor ⟨s &&& 0x0F⟩ x y)
        | _ => .nullptr
      else if s &&& 0xF0 = 0x90 then
        match rest with
        | x :: y :: _ => .message (NoteOn.ctor ⟨s &&& 0x0F⟩ x y)
        | _ => .nullptr
      else if s &&& 0xF0 = 0xA0 then
        match rest with
        | x :: y :: _ => .message (PolyPressure.ctor ⟨s &&& 0x0F⟩ x y)
        | _ => .nullptr
      else if s &&& 0xF0 = 0xB0 then
        match rest with
        | x :: y :: _ => .message (ControlChange.ctor ⟨s &&& 0x0F⟩ x y)
        | _ => .nullptr
      else if s &&& 0xF0 = 0xC0 then
        match rest with
        | x :: _ => .message (ProgramChange.ctor ⟨s &&& 0x0F⟩ x)
        | _ => .nullptr
      else if s &&& 0xF0 = 0xD0 then
        match rest with
        | x :: _ => .message (ChannelPressure.ctor ⟨s &&& 0x0F⟩ x)
        | _ => .nullptr
      else
        match rest with
        | x :: y :: _ => .message (PitchBend.ctor ⟨s &&& 0x0F⟩ x y)
        | _ => .nullptr := by
  have hres : ¬ (s < 0x80 ∨ s = 0xF4 ∨ s = 0xF5 ∨ s = 0xF9 ∨ s = 0xFD) := by omega
  obtain ⟨-, hk⟩ := status_facts s h2 h1
  match rest with
  | [] =>
    simp only [parseMidiMessage, List.length_cons, List.length_nil, List.getD_cons_zero, hres,
      h2, MsgType.toUInt8]
    rcases hk with h | h | h | h | h | h | h <;> simp [h]
  | [x] =>
    simp only [parseMidiMessage, List.length_cons, List.length_nil, List.getD_cons_zero, hres,
      h2, MsgType.toUInt8, List.getD_cons_succ]
    rcases hk with h | h | h | h | h | h | h <;> simp [h]
  | x :: y :: t =>
    simp only [parseMidiMessage, List.length_cons, List.getD_cons_zero, hres,
      h2, MsgType.toUInt8, List.getD_cons_succ]
    rcases hk with h | h | h | h | h | h | h <;> simp [h]

theorem parse_nil : parseMidiMessage [] = .nullptr := by decide

theorem parse_low_or_reserved (s : Nat) (rest : List Nat)
    (h : s < 0x80 ∨ s = 0xF4 ∨ s = 0xF5 ∨ s = 0xF9 ∨ s = 0xFD) :
    parseMidiMessage (s :: rest) = .nullptr := by
  simp [parseMidiMessage, h]

theorem parse_system (s : Nat) (rest : List Nat) (h : 0xF0 ≤ s)
    (hr : s ≠ 0xF4 ∧ s ≠ 0xF5 ∧ s ≠ 0xF9 ∧ s ≠ 0xFD) :
    parseMidiMessage (s :: rest) = .noReturn := by
  have h1 : ¬ (s < 0x80 ∨ s = 0xF4 ∨ s = 0xF5 ∨ s = 0xF9 ∨ s = 0xFD) := by omega
  have h2 : ¬ s < 0xF0 := by omega
  simp [parseMidiMessage, h1, h2]

/-- Claim C2 (decode acceptance). For a byte sequence that is empty or whose first byte is
below `0xF0` or one of `0xF4`, `0xF5`, `0xF9`, `0xFD`: `parseMidiMessage` returns a message
exactly when `decodeAccepts` holds, and returns `nullptr` whenever it does not hold; the
sequences `[]`, `[0xF9]` and `[0x80]` all give `nullptr`. -/
theorem decode_acceptance (b : tRawData)
    (h : ∀ s, b.head? = some s → s < 0xF0 ∨ s = 0xF4 ∨ s = 0xF5 ∨ s = 0xF9 ∨ s = 0xFD) :
    ((∃ m, parseMidiMessage b = .message m) ↔ decodeAccepts b) ∧
    (¬ decodeAccepts b → parseMidiMessage b = .nullptr) ∧
    parseMidiMessage [] = .nullptr ∧ parseMidiMessage [0xF9] = .nullptr ∧
    parseMidiMessage [0x80] = .nullptr := by
  refine ⟨?_, ?_, by decide, by decide, by decide⟩
  all_goals
    match b, h with
    | [], _ => simp [parse_nil, decodeAccepts]
    | s :: rest, h =>
      have hs := h s rfl
      by_cases hlow : s < 0x80 ∨ s = 0xF4 ∨ s = 0xF5 ∨ s = 0xF9 ∨ s = 0xFD
      · rw [parse_low_or_reserved s rest hlow]
        simp [decodeAccepts]
        all_goals (intros; omega)
      · have h1 : 0x80 ≤ s := by omega
        have h2 : s < 0xF0 := by omega
        rw [parse_channel_voice s rest h1 h2]
        obtain ⟨-, hk⟩ := status_facts s h2 h1
        simp only [decodeAccepts, List.head?_cons, Option.some.injEq, MsgType.toUInt8,
          exists_eq_left', h1, true_and, Nat.lt_succ_iff.mp h2, List.mem_cons,
          List.mem_singleton, List.length_cons, List.not_mem_nil, or_false]
        rcases hk with e | e | e | e | e | e | e <;>
          rcases rest with _ | ⟨x, _ | ⟨y, t⟩⟩ <;> simp [e]

/-- Claim C1 (MIDI round trip). For every channel `Ch1` .. `Ch16`, each of the kinds NoteOff,
NoteOn, PolyPressure, ControlChange and all data bytes `d1`, `d2` in `0 .. 127`:
`parseMidiMessage` applied to the raw bytes of the constructed message returns a message of the
same kind whose raw bytes equal those of the original (and `operator ==` holds). -/
theorem midi_round_trip (c : Channel) (d1 d2 : Nat) (hc : c.isChannel)
    (h1 : d1 ≤ 127) (h2 : d2 ≤ 127) :
    (∃ m, parseMidiMessage (NoteOff.ctor c d1 d2).data = .message m ∧
      m.getType = .NoteOff ∧ m.data = (NoteOff.ctor c d1 d2).data ∧
      MidiMessageBase.eq m (NoteOff.ctor c d1 d2) = true) ∧
    (∃ m, parseMidiMessage (NoteOn.ctor c d1 d2).data = .message m ∧
      m.getType = .NoteOn ∧ m.data = (NoteOn.ctor c d1 d2).data ∧
      MidiMessageBase.eq m (NoteOn.ctor c d1 d2) = true) ∧
    (∃ m, parseMidiMessage (PolyPressure.ctor c d1 d2).data = .message m ∧
      m.getType = .PolyPressure ∧ m.data = (PolyPressure.ctor c d1 d2).data ∧
      MidiMessageBase.eq m (PolyPressure.ctor c d1 d2) = true) ∧
    (∃ m, parseMidiMessage (ControlChange.ctor c d1 d2).data = .message m ∧
      m.getType = .ControlChange ∧ m.data = (ControlChange.ctor c d1 d2).data ∧
      MidiMessageBase.eq m (ControlChange.ctor c d1 d2) = true) := by
  obtain ⟨n⟩ := c
  have hn : n < 16 := hc
  obtain ⟨hs, hlo, hhi, r0, r1, r2, r3⟩ := channel_status_facts n hn
  have e1 := M_MIDI_BYTE_of_le d1 h1
  have e2 := M_MIDI_BYTE_of_le d2 h2
  refine ⟨⟨NoteOff.ctor ⟨n⟩ d1 d2, ?_, rfl, rfl, by simp [MidiMessageBase.eq]⟩,
    ⟨NoteOn.ctor ⟨n⟩ d1 d2, ?_, rfl, rfl, by simp [MidiMessageBase.eq]⟩,
    ⟨PolyPressure.ctor ⟨n⟩ d1 d2, ?_, rfl, rfl, by simp [MidiMessageBase.eq]⟩,
    ⟨ControlChange.ctor ⟨n⟩ d1 d2, ?_, rfl, rfl, by simp [MidiMessageBase.eq]⟩⟩
  · have hd : (NoteOff.ctor ⟨n⟩ d1 d2).data = (0x80 ||| n) :: [d1, d2] := by
      simp [NoteOff.ctor, MidiMessageBase.ctor, MidiMessage.data, MsgType.toUInt8, e1, e2, hs]
    rw [hd, parse_channel_voice _ _ r0.1 r0.2]
    simp [hhi, hlo]
  · have hd : (NoteOn.ctor ⟨n⟩ d1 d2).data = (0x90 ||| n) :: [d1, d2] := by
      simp [NoteOn.ctor, MidiMessageBase.ctor, MidiMessage.data, MsgType.toUInt8, e1, e2, hs]
    rw [hd, parse_channel_voice _ _ r1.1 r1.2]
    simp [hhi, hlo]
  · have hd : (PolyPressure.ctor ⟨n⟩ d1 d2).data = (0xA0 ||| n) :: [d1, d2] := by
      simp [PolyPressure.ctor, MidiMessageBase.ctor, MidiMessage.data, MsgType.toUInt8, e1, e2,
        hs]
    rw [hd, parse_channel_voice _ _ r2.1 r2.2]
    simp [hhi, hlo]
  · have hd : (ControlChange.ctor ⟨n⟩ d1 d2).data = (0xB0 ||| n) :: [d1, d2] := by
      simp [ControlChange.ctor, MidiMessageBase.ctor, MidiMessage.data, MsgType.toUInt8, e1, e2,
        hs]
    rw [hd, parse_channel_voice _ _ r3.1 r3.2]
    simp [hhi, hlo]

theorem midi_round_trip_witness :
    Channel.Ch2.isChannel ∧ 60 ≤ 127 ∧ 100 ≤ 127 ∧
    ∃ m, parseMidiMessage (NoteOn.ctor Channel.Ch2 60 100).data = .message m ∧
      m.getType = .NoteOn ∧ m.data = (NoteOn.ctor Channel.Ch2 60 100).data ∧
      MidiMessageBase.eq m (NoteOn.ctor Channel.Ch2 60 100) = true :=
  ⟨by decide, by decide, by decide,
    (midi_round_trip Channel.Ch2 60 100 (by decide) (by decide) (by decide)).2.1⟩

theorem decode_acceptance_witness :
    ((∃ m, parseMidiMessage [0xC5, 9] = .message m) ↔ decodeAccepts [0xC5, 9]) ∧
    (¬ decodeAccepts [0x90, 60] → parseMidiMessage [0x90, 60] = .nullptr) :=
  ⟨(decode_acceptance [0xC5, 9] (by intro s hs; simp at hs; omega)).1,
   (decode_acceptance [0x90, 60] (by intro s hs; simp at hs; omega)).2.1⟩

/-- Claim C3, evaluated on the code. On the system status bytes `0xF0`, `0xF8` and `0xFF`
`parseMidiMessage` takes the empty `else` branch and reaches the end of the function without a
`return`: the outcome is not the explicit `nullptr` that the claim asks for. -/
theorem system_status_reaches_end_without_return :
    parseMidiMessage [0xF0] = .noReturn ∧ parseMidiMessage [0xF8] = .noReturn ∧
    parseMidiMessage [0xFF, 1, 2] = .noReturn ∧ parseMidiMessage [0xF0] ≠ .nullptr := by
  decide

theorem ctor_content (s : Nat) (payload : tRawData) (k : MsgType)
    (hs : ((s &&& 0x0F) ||| k.toUInt8) % 256 = s) :
    (MidiMessageBase.getChannel (MidiMessageBase.ctor k ⟨s &&& 0x0F⟩ payload)).val = s &&& 0x0F ∧
    (MidiMessageBase.ctor k ⟨s &&& 0x0F⟩ payload).data = s :: payload := by
  simp [MidiMessageBase.ctor, MidiMessageBase.getChannel, MidiMessage.data, hs]

/-- Claim C5 (decode content). When `parseMidiMessage b` returns the message `m`, with `s` the
first byte of `b`: the kind of `m` is `s & 0xF0`, its channel ordinal is `s & 0x0F`, and its raw
bytes are `[s, x & 0x7F, y & 0x7F]` for the kinds with two data bytes `x`, `y` and
`[s, x & 0x7F]` for the kinds with one data byte `x`; the result is the same whatever bytes
follow the payload. The sequence `[0xB0, 7, 127]` decodes to a ControlChange on channel
ordinal 0 with control 7 and value 127. -/
theorem decode_content (b : tRawData) (m : MidiMessage)
    (h : parseMidiMessage b = .message m) :
    (∃ s, b.head? = some s ∧ m.getType.toUInt8 = s &&& 0xF0 ∧
      (MidiMessageBase.getChannel m).val = s &&& 0x0F ∧
      ((m.getType ∈ [MsgType.NoteOff, MsgType.NoteOn, MsgType.PolyPressure,
            MsgType.ControlChange, MsgType.PitchBend] ∧
          ∃ x y rest, b = s :: x :: y :: rest ∧ m.data = [s, x &&& 0x7F, y &&& 0x7F] ∧
            ∀ rest', parseMidiMessage (s :: x :: y :: rest') = .message m) ∨
       (m.getType ∈ [MsgType.ProgramChange, MsgType.ChannelPressure] ∧
          ∃ x rest, b = s :: x :: rest ∧ m.data = [s, x &&& 0x7F] ∧
            ∀ rest', parseMidiMessage (s :: x :: rest') = .message m))) ∧
    (parseMidiMessage [0xB0, 7, 127] = .message (ControlChange.ctor Channel.Ch1 7 127) ∧
      (ControlChange.ctor Channel.Ch1 7 127).getType = MsgType.ControlChange ∧
      MidiMessageBase.getChannel (ControlChange.ctor Channel.Ch1 7 127) = Channel.Ch1 ∧
      Channel.Ch1.val = 0 ∧
      ControlChange.getControl (ControlChange.ctor Channel.Ch1 7 127) = some 7 ∧
      ControlChange.getValue (ControlChange.ctor Channel.Ch1 7 127) = some 127) := by
  refine ⟨?_, by decide⟩
  match b, h with
  | [], h => simp [parse_nil] at h
  | s :: rest, h =>
    refine ⟨s, rfl, ?_⟩
    by_cases hlow : s < 0x80 ∨ s = 0xF4 ∨ s = 0xF5 ∨ s = 0xF9 ∨ s = 0xFD
    · simp [parse_low_or_reserved s rest hlow] at h
    by_cases hsys : 0xF0 ≤ s
    · rw [parse_system s rest hsys (by omega)] at h
      simp at h
    have h1 : 0x80 ≤ s := by omega
    have h2 : s < 0xF0 := by omega
    have hall := fun r => parse_channel_voice s r h1 h2
    rw [hall] at h
    obtain ⟨hst, hk⟩ := status_facts s h2 h1
    have hmod : ∀ k, s &&& 0xF0 = k → ((s &&& 0x0F) ||| k) % 256 = s := by
      intro k hk'; rw [← hk']; exact hst
    have hlo : s &&& 0x0F = s &&& 0x0F := rfl
    rcases hk with e | e | e | e | e | e | e
    · rcases rest with _ | ⟨x, _ | ⟨y, t⟩⟩ <;> simp [e] at h
      subst h
      exact ⟨e.symm, (ctor_content s [M_MIDI_BYTE x, M_MIDI_BYTE y] .NoteOff (hmod _ e)).1,
        Or.inl ⟨by simp [NoteOff.ctor, MidiMessageBase.ctor, MidiMessage.getType], x, y, t, rfl,
          by rw [← M_MIDI_BYTE_eq, ← M_MIDI_BYTE_eq]
             exact (ctor_content s [M_MIDI_BYTE x, M_MIDI_BYTE y] .NoteOff (hmod _ e)).2,
          fun r => by rw [hall]; simp [e]⟩⟩
    · rcases rest with _ | ⟨x, _ | ⟨y, t⟩⟩ <;> simp [e] at h
      subst h
      exact ⟨e.symm, (ctor_content s [M_MIDI_BYTE x, M_MIDI_BYTE y] .NoteOn (hmod _ e)).1,
        Or.inl ⟨by simp [NoteOn.ctor, MidiMessageBase.ctor, MidiMessage.getType], x, y, t, rfl,
          by rw [← M_MIDI_BYTE_eq, ← M_MIDI_BYTE_eq]
             exact (ctor_content s [M_MIDI_BYTE x, M_MIDI_BYTE y] .NoteOn (hmod _ e)).2,
          fun r => by rw [hall]; simp [e]⟩⟩
    · rcases rest with _ | ⟨x, _ | ⟨y, t⟩⟩ <;> simp [e] at h
      subst h
      exact ⟨e.symm, (ctor_content s [M_MIDI_BYTE x, M_MIDI_BYTE y] .PolyPressure (hmod _ e)).1,
        Or.inl ⟨by simp [PolyPressure.ctor, MidiMessageBase.ctor, MidiMessage.getType], x, y, t, rfl,
          by rw [← M_MIDI_BYTE_eq, ← M_MIDI_BYTE_eq]
             exact (ctor_content s [M_MIDI_BYTE x, M_MIDI_BYTE y] .PolyPressure (hmod _ e)).2,
          fun r => by rw [hall]; simp [e]⟩⟩
    · rcases rest with _ | ⟨x, _ | ⟨y, t⟩⟩ <;> simp [e] at h
      subst h
      exact ⟨e.symm, (ctor_content s [M_MIDI_BYTE x, M_MIDI_BYTE y] .ControlChange (hmod _ e)).1,
        Or.inl ⟨by simp [ControlChange.ctor, MidiMessageBase.ctor, MidiMessage.getType], x, y, t, rfl,
          by rw [← M_MIDI_BYTE_eq, ← M_MIDI_BYTE_eq]
             exact (ctor_content s [M_MIDI_BYTE x, M_MIDI_BYTE y] .ControlChange (hmod _ e)).2,
          fun r => by rw [hall]; simp [e]⟩⟩
    · rcases rest with _ | ⟨x, t⟩ <;> simp [e] at h
      subst h
      exact ⟨e.symm, (ctor_content s [M_MIDI_BYTE x] .ProgramChange (hmod _ e)).1,
        Or.inr ⟨by simp [ProgramChange.ctor, MidiMessageBase.ctor, MidiMessage.getType], x, t, rfl,
          by rw [← M_MIDI_BYTE_eq]
             exact (ctor_content s [M_MIDI_BYTE x] .ProgramChange (hmod _ e)).2,
          fun r => by rw [hall]; simp [e]⟩⟩
    · rcases rest with _ | ⟨x, t⟩ <;> simp [e] at h
      subst h
      exact ⟨e.symm, (ctor_content s [M_MIDI_BYTE x] .ChannelPressure (hmod _ e)).1,
        Or.inr ⟨by simp [ChannelPressure.ctor, MidiMessageBase.ctor, MidiMessage.getType], x, t, rfl,
          by rw [← M_MIDI_BYTE_eq]
             exact (ctor_content s [M_MIDI_BYTE x] .ChannelPressure (hmod _ e)).2,
          fun r => by rw [hall]; simp [e]⟩⟩
    · rcases rest with _ | ⟨x, _ | ⟨y, t⟩⟩ <;> simp [e] at h
      subst h
      exact ⟨e.symm, (ctor_content s [M_MIDI_BYTE x, M_MIDI_BYTE y] .PitchBend (hmod _ e)).1,
        Or.inl ⟨by simp [PitchBend.ctor, MidiMessageBase.ctor, MidiMessage.getType], x, y, t, rfl,
          by rw [← M_MIDI_BYTE_eq, ← M_MIDI_BYTE_eq]
             exact (ctor_content s [M_MIDI_BYTE x, M_MIDI_BYTE y] .PitchBend (hmod _ e)).2,
          fun r => by rw [hall]; simp [e]⟩⟩

theorem decode_content_witness :
    parseMidiMessage [0x91, 60, 100, 5] = .message (NoteOn.ctor Channel.Ch2 60 100) ∧
    ∃ s, [0x91, 60, 100, 5].head? = some s ∧
      (NoteOn.ctor Channel.Ch2 60 100).getType.toUInt8 = s &&& 0xF0 ∧
      (MidiMessageBase.getChannel (NoteOn.ctor Channel.Ch2 60 100)).val = s &&& 0x0F :=
  ⟨by decide,
   by
    obtain ⟨s, hs, ht, hc, -⟩ :=
      (decode_content [0x91, 60, 100, 5] (NoteOn.ctor Channel.Ch2 60 100) (by decide)).1
    exact ⟨s, hs, ht, hc⟩⟩

/-- Claim C4 (encode layout). For every channel `Ch1` .. `Ch16` and all payload values `d1`,
`d2` (with or without the high bit): the raw bytes of a constructed message are
`[k | c, d1 & 0x7F, d2 & 0x7F]` for NoteOff, NoteOn, PolyPressure, ControlChange, PitchBend and
`[k | c, d1 & 0x7F]` for ProgramChange, ChannelPressure, and `getChannel` returns `c`.
NoteOn on channel ordinal 1 with note 60 and velocity 100 gives `[0x91, 60, 100]`. -/
theorem encode_layout (c : Channel) (d1 d2 : Nat) (hc : c.isChannel) :
    ((NoteOff.ctor c d1 d2).data = [0x80 ||| c.val, d1 &&& 0x7F, d2 &&& 0x7F] ∧
      MidiMessageBase.getChannel (NoteOff.ctor c d1 d2) = c) ∧
    ((NoteOn.ctor c d1 d2).data = [0x90 ||| c.val, d1 &&& 0x7F, d2 &&& 0x7F] ∧
      MidiMessageBase.getChannel (NoteOn.ctor c d1 d2) = c) ∧
    ((PolyPressure.ctor c d1 d2).data = [0xA0 ||| c.val, d1 &&& 0x7F, d2 &&& 0x7F] ∧
      MidiMessageBase.getChannel (PolyPressure.ctor c d1 d2) = c) ∧
    ((ControlChange.ctor c d1 d2).data = [0xB0 ||| c.val, d1 &&& 0x7F, d2 &&& 0x7F] ∧
      MidiMessageBase.getChannel (ControlChange.ctor c d1 d2) = c) ∧
    ((PitchBend.ctor c d1 d2).data = [0xE0 ||| c.val, d1 &&& 0x7F, d2 &&& 0x7F] ∧
      MidiMessageBase.getChannel (PitchBend.ctor c d1 d2) = c) ∧
    ((ProgramChange.ctor c d1).data = [0xC0 ||| c.val, d1 &&& 0x7F] ∧
      MidiMessageBase.getChannel (ProgramChange.ctor c d1) = c) ∧
    ((ChannelPressure.ctor c d1).data = [0xD0 ||| c.val, d1 &&& 0x7F] ∧
      MidiMessageBase.getChannel (ChannelPressure.ctor c d1) = c) ∧
    (NoteOn.ctor Channel.Ch2 60 100).data = [0x91, 60, 100] := by
  obtain ⟨n⟩ := c
  have hn : n < 16 := hc
  obtain ⟨hs, hlo, -, -⟩ := channel_status_facts n hn
  simp only [NoteOff.ctor, NoteOn.ctor, PolyPressure.ctor, ControlChange.ctor, PitchBend.ctor,
    ProgramChange.ctor, ChannelPressure.ctor, MidiMessageBase.ctor, MidiMessage.data,
    MidiMessageBase.getChannel, MsgType.toUInt8, M_MIDI_BYTE_eq, List.singleton_append,
    hs, hlo, and_self, true_and]
  decide

theorem encode_layout_witness :
    Channel.Ch2.isChannel ∧
    (NoteOn.ctor Channel.Ch2 188 228).data = [0x90 ||| Channel.Ch2.val, 188 &&& 0x7F, 228 &&& 0x7F] ∧
    MidiMessageBase.getChannel (NoteOn.ctor Channel.Ch2 188 228) = Channel.Ch2 :=
  ⟨by decide, (encode_layout Channel.Ch2 188 228 (by decide)).2.1⟩

theorem processMidi_drops_other_kinds {σ : Type} (l : MidiMessageListener σ) (data_ : tRawData)
    (m : MidiMessage) (s : σ) (h : parseMidiMessage data_ = .message m)
    (hk : m.getType ≠ .NoteOff) : processMidi l data_ s = some s := by
  unfold processMidi
  rw [h]
  cases hm : m.getType <;> simp_all

/-- Claim C6, evaluated on the code. With a consumer registered for every kind, the sequence
`[0x90, 60, 100]` decodes to a NoteOn message and `processMidi` invokes no consumer at all; the
same happens for a ControlChange and a ProgramChange sequence. Only a NoteOff sequence reaches
its consumer, once. -/
theorem processMidi_dispatches_only_NoteOff :
    parseMidiMessage [0x90, 60, 100] = .message (NoteOn.ctor Channel.Ch1 60 100) ∧
    (NoteOn.ctor Channel.Ch1 60 100).getType = .NoteOn ∧
    recordingListener.m_cbNoteOn.isSome = true ∧
    processMidi recordingListener [0x90, 60, 100] [] = some [] ∧
    processMidi recordingListener [0xB0, 7, 127] [] = some [] ∧
    processMidi recordingListener [0xC0, 5] [] = some [] ∧
    processMidi recordingListener [0x80, 60, 100] [] =
      some [(.NoteOff, NoteOff.ctor Channel.Ch1 60 100)] := by
  decide

/-- Claim C7 (note value formula). For every note name `n` and every octave `o`,
`MidiNote(n, o).value()` equals `(clamp(o, -1, 9) + 1) * 12 + offset(n)` as an integer, with
no wrap-around in the conversion to a byte; the offset is at most 11 and the value at most 131,
which is reached for B at every octave `9 + k`; `MidiNote(C, 4).value()` is 60; `setNote`
replaces the name and keeps the octave. -/
theorem note_value_formula (n n' : MidiNote.Name) (o : Int) (k : Nat) (self : MidiNote) :
    ((MidiNote.ctor n o).value : Int) = (clamp o (-1) 9 + 1) * 12 + (n.toUInt8 : Int) ∧
    n.toUInt8 ≤ 11 ∧
    (MidiNote.ctor n o).value ≤ 131 ∧
    (MidiNote.ctor .B (9 + k)).value = 131 ∧
    (MidiNote.ctor .C 4).value = 60 ∧
    (self.setNote n').m_octave = self.m_octave ∧ (self.setNote n').m_note = n' := by
  have hn : n.toUInt8 ≤ 11 := by cases n <;> decide
  have hc : clamp o (-1) 9 = min 9 (max (-1) o) := by
    unfold clamp; split_ifs <;> omega
  have hv : ((MidiNote.ctor n o).value : Int) = (clamp o (-1) 9 + 1) * 12 + (n.toUInt8 : Int) := by
    simp only [MidiNote.value, MidiNote.ctor, hc]
    omega
  refine ⟨hv, hn, ?_, ?_, by decide, rfl, rfl⟩
  · have : clamp o (-1) 9 ≤ 9 := by rw [hc]; omega
    omega
  · simp only [MidiNote.value, MidiNote.ctor, MidiNote.Name.toUInt8]
    omega

theorem pitch_reassemble (p : Nat) :
    ((p &&& 0x7F) ||| (((p >>> 7) &&& 0x7F) <<< 7)) % 65536 = p % 16384 := by
  have e1 : p &&& 0x7F = p % 2 ^ 7 := Nat.and_pow_two_sub_one_eq_mod p 7
  have e2 : (p >>> 7) &&& 0x7F = (p >>> 7) % 2 ^ 7 := Nat.and_pow_two_sub_one_eq_mod _ 7
  have hlt : p % 2 ^ 7 < 2 ^ 7 := Nat.mod_lt _ (by decide)
  rw [e1, e2, Nat.shiftRight_eq_div_pow, Nat.shiftLeft_eq, Nat.lor_comm, Nat.mul_comm,
    ← Nat.mul_add_lt_is_or hlt]
  omega

theorem getPitch_ctor (c : Channel) (lo hi : Nat) :
    PitchBend.getPitch (PitchBend.ctor c lo hi) =
      some ((lo &&& 0x7F) ||| ((hi &&& 0x7F) <<< 7)) := by
  have h1 : lo &&& 0x7F ≤ 0x7F := Nat.and_le_right
  have h2 : hi &&& 0x7F ≤ 0x7F := Nat.and_le_right
  have e1 : lo &&& 0x7F = (lo &&& 0x7F) % 2 ^ 7 := (Nat.mod_eq_of_lt (by omega)).symm
  have hlt : (lo &&& 0x7F) % 2 ^ 7 < 2 ^ 7 := Nat.mod_lt _ (by decide)
  have hsum : ((lo &&& 0x7F) ||| ((hi &&& 0x7F) <<< 7)) < 65536 := by
    rw [e1, Nat.shiftLeft_eq, Nat.lor_comm, Nat.mul_comm, ← Nat.mul_add_lt_is_or hlt]
    omega
  simp only [PitchBend.getPitch, PitchBend.ctor, MidiMessageBase.ctor, MidiMessage.data,
    M_MIDI_BYTE_eq, List.singleton_append, List.getElem?_cons_succ, List.getElem?_cons_zero,
    Option.bind_eq_bind, Option.some_bind, Option.pure_def, Nat.mod_eq_of_lt hsum]

/-- Claim C8 (PitchBend 14-bit round trip). For every channel `Ch1` .. `Ch16` and every value
`p`: the message built by `PitchBend(c, p)` has raw bytes
`[0xE0 | c, p & 0x7F, (p >> 7) & 0x7F]` and `getPitch()` returns `p mod 16384`, hence `p` itself
when `p ≤ 16383`; for the constructor with two data bytes `getPitch()` returns
`(lo & 0x7F) | ((hi & 0x7F) << 7)`. -/
theorem pitch_bend_round_trip (c : Channel) (p lo hi : Nat) (hc : c.isChannel) :
    (PitchBend.ctor16 c p).data = [0xE0 ||| c.val, p &&& 0x7F, (p >>> 7) &&& 0x7F] ∧
    PitchBend.getPitch (PitchBend.ctor16 c p) = some (p % 16384) ∧
    (p ≤ 16383 → PitchBend.getPitch (PitchBend.ctor16 c p) = some p) ∧
    PitchBend.getPitch (PitchBend.ctor c lo hi) =
      some ((lo &&& 0x7F) ||| ((hi &&& 0x7F) <<< 7)) := by
  obtain ⟨n⟩ := c
  have hn : n < 16 := hc
  obtain ⟨hs, -, -, -⟩ := channel_status_facts n hn
  have hd : (PitchBend.ctor16 ⟨n⟩ p).data = [0xE0 ||| n, p &&& 0x7F, (p >>> 7) &&& 0x7F] := by
    simp [PitchBend.ctor16, MidiMessageBase.ctor, MidiMessage.data, M_MIDI_BYTE_eq,
      MsgType.toUInt8, hs]
  have hp : PitchBend.getPitch (PitchBend.ctor16 ⟨n⟩ p) = some (p % 16384) := by
    simp only [PitchBend.getPitch, hd, List.getElem?_cons_succ, List.getElem?_cons_zero,
      Option.bind_eq_bind, Option.some_bind, Option.pure_def, pitch_reassemble]
  refine ⟨hd, hp, ?_, getPitch_ctor _ lo hi⟩
  intro hle
  rw [hp, Nat.mod_eq_of_lt (by omega)]

theorem pitch_bend_round_trip_witness :
    Channel.Ch3.isChannel ∧
    (PitchBend.ctor16 Channel.Ch3 8192).data = [0xE2, 0, 64] ∧
    PitchBend.getPitch (PitchBend.ctor16 Channel.Ch3 8192) = some 8192 ∧
    PitchBend.getPitch (PitchBend.ctor16 Channel.Ch3 40000) = some (40000 % 16384) :=
  ⟨by decide, (pitch_bend_round_trip Channel.Ch3 8192 0 0 (by decide)).1,
    (pitch_bend_round_trip Channel.Ch3 8192 0 0 (by decide)).2.2.1 (by decide),
    (pitch_bend_round_trip Channel.Ch3 40000 0 0 (by decide)).2.1⟩

/-- Claim C9 fails as stated: `NoteOff` built with the channel value `Undefined` (16) and
`NoteOn` built with `Ch1` are of different kinds and have the same raw bytes `[0x90, 60, 100]`;
likewise `ProgramChange` with `Undefined` and `ChannelPressure` with `Ch1`. -/
theorem different_kinds_equal_bytes :
    Channel.Undefined.isEnumerator ∧ Channel.Ch1.isEnumerator ∧
    (NoteOff.ctor Channel.Undefined 60 100).getType ≠ (NoteOn.ctor Channel.Ch1 60 100).getType ∧
    (NoteOff.ctor Channel.Undefined 60 100).data = (NoteOn.ctor Channel.Ch1 60 100).data ∧
    (NoteOn.ctor Channel.Ch1 60 100).data = [0x90, 60, 100] ∧
    (ProgramChange.ctor Channel.Undefined 5).data = (ChannelPressure.ctor Channel.Ch1 5).data := by
  decide

theorem build_status (a : ConcreteCtor) (ha : a.channelKeepsKind) :
    ∃ s rest, a.build.data = s :: rest ∧ statusKind s = a.build.getType.toUInt8 := by
  have key : ∀ c, c ≤ 16 →
      (c < 16 →
        statusKind ((c ||| 0x80) % 256) = 0x80 ∧ statusKind ((c ||| 0xA0) % 256) = 0xA0 ∧
        statusKind ((c ||| 0xC0) % 256) = 0xC0) ∧
      statusKind ((c ||| 0x90) % 256) = 0x90 ∧ statusKind ((c ||| 0xB0) % 256) = 0xB0 ∧
      statusKind ((c ||| 0xD0) % 256) = 0xD0 ∧ statusKind ((c ||| 0xE0) % 256) = 0xE0 := by
    decide
  have hle : a.channel.val ≤ 16 := by
    rcases ha with h | ⟨h, -⟩
    · exact Nat.le_of_lt h
    · rw [h]; decide
  obtain ⟨k1, k2, k3, k4, k5⟩ := key _ hle
  cases a with
  | NoteOff c x y =>
    have hc : c.val < 16 := by
      rcases ha with h | ⟨-, h⟩
      · exact h
      · simp [ConcreteCtor.build, NoteOff.ctor, MidiMessageBase.ctor, MidiMessage.getType] at h
    exact ⟨_, _, rfl, (k1 hc).1⟩
  | PolyPressure c x y =>
    have hc : c.val < 16 := by
      rcases ha with h | ⟨-, h⟩
      · exact h
      · simp [ConcreteCtor.build, PolyPressure.ctor, MidiMessageBase.ctor,
          MidiMessage.getType] at h
    exact ⟨_, _, rfl, (k1 hc).2.1⟩
  | ProgramChange c x =>
    have hc : c.val < 16 := by
      rcases ha with h | ⟨-, h⟩
      · exact h
      · simp [ConcreteCtor.build, ProgramChange.ctor, MidiMessageBase.ctor,
          MidiMessage.getType] at h
    exact ⟨_, _, rfl, (k1 hc).2.2⟩
  | NoteOn c x y => exact ⟨_, _, rfl, k2⟩
  | ControlChange c x y => exact ⟨_, _, rfl, k3⟩
  | ChannelPressure c x => exact ⟨_, _, rfl, k4⟩
  | PitchBend c x y => exact ⟨_, _, rfl, k5⟩
  | PitchBend16 c p => exact ⟨_, _, rfl, k5⟩

theorem MsgType_toUInt8_injective (a b : MsgType) (h : a.toUInt8 = b.toUInt8) : a = b := by
  cases a <;> cases b <;> first | rfl | (exact absurd h (by decide))

/-- Claim C9, amended. Two messages built by the concrete constructors with different kinds
have different raw bytes (and `operator ==` on their bytes is false), provided each channel
argument is one of `Ch1` .. `Ch16`, or is `Undefined` with a kind among NoteOn, ControlChange,
ChannelPressure, PitchBend. -/
theorem different_kinds_differ (a b : ConcreteCtor) (ha : a.channelKeepsKind)
    (hb : b.channelKeepsKind) (hk : a.build.getType ≠ b.build.getType) :
    a.build.data ≠ b.build.data ∧ MidiMessageBase.eq a.build b.build = false := by
  have hne : a.build.data ≠ b.build.data := by
    intro heq
    obtain ⟨s, r, hs, hks⟩ := build_status a ha
    obtain ⟨s', r', hs', hks'⟩ := build_status b hb
    rw [heq, hs'] at hs
    injection hs with e1 e2
    subst e1
    exact hk (MsgType_toUInt8_injective _ _ (hks'.symm.trans hks).symm)
  refine ⟨hne, ?_⟩
  have hne' : a.build.m_data ≠ b.build.m_data := hne
  simp [MidiMessageBase.eq, hne']

theorem different_kinds_differ_witness :
    (ConcreteCtor.NoteOff Channel.Ch1 60 100).channelKeepsKind ∧
    (ConcreteCtor.NoteOn Channel.Undefined 60 100).channelKeepsKind ∧
    (NoteOff.ctor Channel.Ch1 60 100).getType ≠ (NoteOn.ctor Channel.Undefined 60 100).getType ∧
    (NoteOff.ctor Channel.Ch1 60 100).data ≠ (NoteOn.ctor Channel.Undefined 60 100).data :=
  ⟨Or.inl (by decide), Or.inr ⟨rfl, by decide⟩, by decide,
    (different_kinds_differ (.NoteOff Channel.Ch1 60 100) (.NoteOn Channel.Undefined 60 100)
      (Or.inl (by decide)) (Or.inr ⟨rfl, by decide⟩) (by decide)).1⟩

end midi

namespace cabl
namespace GDisplayMaschineMK1

/-! ### Bytes and buffers -/

theorem canvasWidthInBytes_eq : canvasWidthInBytes = 170 := by decide

theorem masked_write (b m n : Nat) (hm : m < 256) :
    ((((b ||| m) % 256) &&& n) % 256) &&& m = n &&& m := by
  have hmod : ∀ x, x % 256 = x % 2 ^ 8 := fun _ => rfl
  apply Nat.eq_of_testBit_eq
  intro i
  simp only [hmod, Nat.testBit_and, Nat.testBit_or, Nat.testBit_mod_two_pow]
  by_cases hi : i < 8
  · simp [hi]
    cases Nat.testBit m i <;> simp
  · have hpow : 2 ^ 8 ≤ 2 ^ i := Nat.pow_le_pow_right (by decide) (by omega)
    have hmi : Nat.testBit m i = false :=
      Nat.testBit_lt_two_pow
        (Nat.lt_of_lt_of_le hm hpow)
    simp [hmi]

theorem getD_set_eq (l : List Nat) (i a : Nat) (h : i < l.length) :
    (l.set i a).getD i 0 = a := by
  simp [List.getD_eq_getElem?_getD, List.getElem?_set, h]

theorem getD_set_ne (l : List Nat) (i j a : Nat) (h : i ≠ j) :
    (l.set i a).getD j 0 = l.getD j 0 := by
  simp [List.getD_eq_getElem?_getD, List.getElem?_set_ne h]

theorem length_orAt (l : List Nat) (i m : Nat) : (orAt l i m).length = l.length := by
  simp [orAt]

theorem length_andNotAt (l : List Nat) (i v : Nat) : (andNotAt l i v).length = l.length := by
  simp [andNotAt]

theorem getD_orAt_eq (l : List Nat) (i m : Nat) (h : i < l.length) :
    (orAt l i m).getD i 0 = (l.getD i 0 ||| m) % 256 := getD_set_eq _ _ _ h

theorem getD_orAt_ne (l : List Nat) (i j m : Nat) (h : i ≠ j) :
    (orAt l i m).getD j 0 = l.getD j 0 := getD_set_ne _ _ _ _ h

theorem getD_andNotAt_eq (l : List Nat) (i v : Nat) (h : i < l.length) :
    (andNotAt l i v).getD i 0 = (l.getD i 0 &&& not8 v) % 256 := getD_set_eq _ _ _ h

theorem getD_andNotAt_ne (l : List Nat) (i j v : Nat) (h : i ≠ j) :
    (andNotAt l i v).getD j 0 = l.getD j 0 := getD_set_ne _ _ _ _ h

/-- The field bits of a byte after `|= m` and `&= ~v`. -/
theorem field_after_write (l : List Nat) (i m v : Nat) (h : i < l.length) (hm : m < 256) :
    (andNotAt (orAt l i m) i v).getD i 0 &&& m = not8 v &&& m := by
  rw [getD_andNotAt_eq _ _ _ (by rw [length_orAt]; exact h), getD_orAt_eq _ _ _ h,
    masked_write _ _ _ hm]

theorem complement_fields : ∀ v, v < 32 →
    (not8 (v <<< 3) &&& 0xF8) >>> 3 = 31 - v ∧
    ((not8 (v >>> 2) &&& 0x07) <<< 2) ||| ((not8 (v <<< 6) &&& 0xC0) >>> 6) = 31 - v ∧
    not8 v &&& 0x1F = 31 - v := by
  decide

theorem toLevel_lt (m : Nat) (h : m ≤ 255) : toLevel m < 32 := by
  have hb : (m * 62 + 255) / 510 ≤ 31 := by omega
  unfold toLevel
  rw [Nat.mod_eq_of_lt (by omega)]
  omega

theorem toLuminance_lt (f : Nat) : toLuminance f < 256 := by
  unfold toLuminance not8
  omega

theorem quantization_bound : ∀ l, l < 256 →
    toLuminance (31 - toLevel l) ≤ l + 8 ∧ l ≤ toLuminance (31 - toLevel l) + 8 := by
  decide

/-! ### Reading and writing one pixel -/

variable {C : Type}

theorem pixelImpl_eq (ops : ColorOps C) (self : GDisplayMaschineMK1) (x y : Nat)
    (hx : x < width) (hy : y < height) :
    pixelImpl ops self x y = ops.ofMono (toLuminance (storedField self.buffer x y)) := by
  have hb : ¬ (x ≥ width ∨ y ≥ height) := by omega
  have h3 : x % 3 = 0 ∨ x % 3 = 1 ∨ x % 3 = 2 := by omega
  simp only [pixelImpl, hb, if_false, storedField]
  rcases h3 with h | h | h <;> simp [h]

/-- The buffer that `setPixelImpl` leaves for an accepted write packing level `v`. -/
theorem setPixelImpl_buffer (ops : ColorOps C) (self : GDisplayMaschineMK1) (x y : Nat)
    (c : C) (d : Bool) (hx : x < width) (hy : y < height) (ht : ops.transparent c = false) :
    (setPixelImpl ops self x y c d).buffer =
      (match x % 3 with
      | 0 =>
        andNotAt (orAt self.buffer (canvasWidthInBytes * y + x / 3 * 2) 0xF8)
          (canvasWidthInBytes * y + x / 3 * 2) (packedLevel ops (pixelImpl ops self x y) c <<< 3)
      | 1 =>
        andNotAt
          (andNotAt
            (orAt (orAt self.buffer (canvasWidthInBytes * y + x / 3 * 2) 0x07)
              (canvasWidthInBytes * y + x / 3 * 2 + 1) 0xC0)
            (canvasWidthInBytes * y + x / 3 * 2) (packedLevel ops (pixelImpl ops self x y) c >>> 2))
          (canvasWidthInBytes * y + x / 3 * 2 + 1)
          (packedLevel ops (pixelImpl ops self x y) c <<< 6)
      | _ =>
        andNotAt (orAt self.buffer (canvasWidthInBytes * y + x / 3 * 2 + 1) 0x1F)
          (canvasWidthInBytes * y + x / 3 * 2 + 1) (packedLevel ops (pixelImpl ops self x y) c)) := by
  have hb : ¬ (x ≥ width ∨ y ≥ height ∨ ops.transparent c = true) := by
    simp [ht]; omega
  have h3 : x % 3 = 0 ∨ x % 3 = 1 ∨ x % 3 = 2 := by omega
  simp only [setPixelImpl, hb, if_false, packedLevel]
  rcases h3 with h | h | h <;> simp only [h] <;> split <;> rfl

theorem byteIndex_lt (self : GDisplayMaschineMK1) (x y : Nat) (hx : x < width) (hy : y < height)
    (hlen : self.buffer.length = canvasWidthInBytesImpl * height) :
    canvasWidthInBytes * y + x / 3 * 2 + 1 < self.buffer.length := by
  have hw : canvasWidthInBytesImpl = 170 := by decide
  have hh : height = 64 := rfl
  have hx' : x < 255 := hx
  rw [hlen, canvasWidthInBytes_eq, hw, hh]
  rw [hh] at hy
  omega

/-- After an accepted write the stored field is the five-bit complement of the packed level. -/
theorem storedField_setPixelImpl (ops : ColorOps C) (self : GDisplayMaschineMK1) (x y : Nat)
    (c : C) (d : Bool) (hx : x < width) (hy : y < height) (ht : ops.transparent c = false)
    (hlen : self.buffer.length = canvasWidthInBytesImpl * height)
    (hv : packedLevel ops (pixelImpl ops self x y) c < 32) :
    storedField (setPixelImpl ops self x y c d).buffer x y =
      31 - packedLevel ops (pixelImpl ops self x y) c := by
  have hi := byteIndex_lt self x y hx hy hlen
  have hi0 : canvasWidthInBytes * y + x / 3 * 2 < self.buffer.length := by omega
  obtain ⟨f0, f1, f2⟩ := complement_fields _ hv
  have h3 : x % 3 = 0 ∨ x % 3 = 1 ∨ x % 3 = 2 := by omega
  rw [setPixelImpl_buffer ops self x y c d hx hy ht]
  rcases h3 with h | h | h
  · simp only [storedField, h]
    rw [field_after_write _ _ _ _ hi0 (by decide)]
    exact f0
  · simp only [storedField, h]
    generalize canvasWidthInBytes * y + x / 3 * 2 = i at hi hi0 ⊢
    generalize packedLevel ops (pixelImpl ops self x y) c = v at f1 ⊢
    have l1 : (orAt self.buffer i 0x07).length = self.buffer.length := length_orAt _ _ _
    have l2 : (orAt (orAt self.buffer i 0x07) (i + 1) 0xC0).length = self.buffer.length := by
      rw [length_orAt, l1]
    have l3 : (andNotAt (orAt (orAt self.buffer i 0x07) (i + 1) 0xC0) i (v >>> 2)).length =
        self.buffer.length := by rw [length_andNotAt, l2]
    have b0 : (andNotAt (andNotAt (orAt (orAt self.buffer i 0x07) (i + 1) 0xC0) i (v >>> 2))
        (i + 1) (v <<< 6)).getD i 0 &&& 0x07 = not8 (v >>> 2) &&& 0x07 := by
      rw [getD_andNotAt_ne _ _ _ _ (by omega : i + 1 ≠ i), getD_andNotAt_eq _ _ _ (by omega),
        getD_orAt_ne _ _ _ _ (by omega : i + 1 ≠ i), getD_orAt_eq _ _ _ hi0,
        masked_write _ _ _ (by decide)]
    have b1 : (andNotAt (andNotAt (orAt (orAt self.buffer i 0x07) (i + 1) 0xC0) i (v >>> 2))
        (i + 1) (v <<< 6)).getD (i + 1) 0 &&& 0xC0 = not8 (v <<< 6) &&& 0xC0 := by
      rw [getD_andNotAt_eq _ _ _ (by omega), getD_andNotAt_ne _ _ _ _ (by omega : i ≠ i + 1),
        getD_orAt_eq _ _ _ (by omega), masked_write _ _ _ (by decide)]
    rw [b0, b1]
    exact f1
  · simp only [storedField, h]
    rw [field_after_write _ _ _ _ hi (by decide)]
    exact f2

theorem initializeImpl_length (self : GDisplayMaschineMK1) :
    (initializeImpl self).buffer.length = canvasWidthInBytesImpl * height := by
  simp [initializeImpl, black, fill, setDirty]

/-- Claim C10 (pixel round trip within quantization). For every `x < 255`, `y < 64`, every
buffer of the initialized size and every colour that is not transparent, has no invert blend
mode and has luminance `L ≤ 255`: after `setPixelImpl` the luminance of the colour returned by
`pixelImpl` at the same position differs from `L` by at most 8. The colour operations are any
for which the colour built from a luminance byte has that luminance. -/
theorem pixel_round_trip (ops : ColorOps C) (self : GDisplayMaschineMK1) (x y : Nat) (c : C)
    (markDirty : Bool)
    (hmono : ∀ v, v < 256 → ops.mono (ops.ofMono v) = v)
    (hlen : self.buffer.length = canvasWidthInBytesImpl * height)
    (hx : x < 255) (hy : y < 64)
    (ht : ops.transparent c = false) (hb : ops.blendModeIsInvert c = false)
    (hL : ops.mono c ≤ 255) :
    ops.mono (pixelImpl ops (setPixelImpl ops self x y c markDirty) x y) ≤ ops.mono c + 8 ∧
    ops.mono c ≤ ops.mono (pixelImpl ops (setPixelImpl ops self x y c markDirty) x y) + 8 := by
  have hlev : packedLevel ops (pixelImpl ops self x y) c = toLevel (ops.mono c) := by
    simp [packedLevel, hb]
  have hv : packedLevel ops (pixelImpl ops self x y) c < 32 := by
    rw [hlev]; exact toLevel_lt _ hL
  rw [pixelImpl_eq ops _ x y hx hy, hmono _ (toLuminance_lt _),
    storedField_setPixelImpl ops self x y c markDirty hx hy ht hlen hv, hlev]
  exact quantization_bound _ (by omega)

theorem pixel_round_trip_witness :
    grayOps.mono (pixelImpl grayOps
      (setPixelImpl grayOps (initializeImpl ⟨[], []⟩) 100 20 ⟨200, .Normal⟩ true) 100 20)
      ≤ 200 + 8 ∧
    200 ≤ grayOps.mono (pixelImpl grayOps
      (setPixelImpl grayOps (initializeImpl ⟨[], []⟩) 100 20 ⟨200, .Normal⟩ true) 100 20) + 8 :=
  pixel_round_trip grayOps (initializeImpl ⟨[], []⟩) 100 20 ⟨200, .Normal⟩ true
    (fun _ _ => rfl) (initializeImpl_length _) (by decide) (by decide) rfl rfl (by decide)

/-! ### One packed byte -/

theorem packByte_field (b m v : Nat) (hm : m < 256) : packByte b m v &&& m = not8 v &&& m :=
  masked_write b m (not8 v) hm

/-- Bits outside the mask, and set in `~v`, keep their value. -/
theorem packByte_keep (b m v k : Nat) (hk : k < 256) (hmk : m &&& k = 0)
    (hvk : not8 v &&& k = k) : packByte b m v &&& k = b &&& k := by
  have hmod : ∀ x, x % 256 = x % 2 ^ 8 := fun _ => rfl
  apply Nat.eq_of_testBit_eq
  intro i
  have h1 := congrArg (fun n => Nat.testBit n i) hmk
  have h2 := congrArg (fun n => Nat.testBit n i) hvk
  simp only [Nat.testBit_and, Nat.zero_testBit] at h1 h2
  simp only [packByte, hmod, Nat.testBit_and, Nat.testBit_or, Nat.testBit_mod_two_pow]
  by_cases hi : i < 8
  · simp only [hi, decide_True, Bool.true_and]
    cases hki : Nat.testBit k i
    · simp
    · rw [hki] at h1 h2
      simp only [Bool.and_true] at h1 h2
      simp [h1, h2]
  · have hpow : 2 ^ 8 ≤ 2 ^ i := Nat.pow_le_pow_right (by decide) (by omega)
    have hki : Nat.testBit k i = false :=
      Nat.testBit_lt_two_pow (Nat.lt_of_lt_of_le hk hpow)
    simp [hki]

/-! ### The buffer after a write -/

theorem getD_pack (l : List Nat) (i m v j : Nat) (h : i < l.length) :
    (andNotAt (orAt l i m) i v).getD j 0 =
      if j = i then packByte (l.getD i 0) m v else l.getD j 0 := by
  by_cases hj : j = i
  · subst hj
    rw [if_pos rfl, getD_andNotAt_eq _ _ _ (by rw [length_orAt]; exact h), getD_orAt_eq _ _ _ h]
    rfl
  · rw [if_neg hj, getD_andNotAt_ne _ _ _ _ (Ne.symm hj), getD_orAt_ne _ _ _ _ (Ne.symm hj)]

theorem length_setPixelImpl (ops : ColorOps C) (self : GDisplayMaschineMK1) (x y : Nat)
    (c : C) (d : Bool) :
    (setPixelImpl ops self x y c d).buffer.length = self.buffer.length := by
  unfold setPixelImpl
  split
  · rfl
  · have h3 : x % 3 = 0 ∨ x % 3 = 1 ∨ x % 3 = 2 := by omega
    rcases h3 with h | h | h <;> simp only [h] <;> split <;>
      simp [setDirtyChunk, length_orAt, length_andNotAt]

/-- Each byte of the buffer after an accepted write that packs the level `v`. -/
theorem getD_setPixelImpl (ops : ColorOps C) (self : GDisplayMaschineMK1) (x y : Nat)
    (c : C) (d : Bool) (j : Nat) (hx : x < width) (hy : y < height)
    (ht : ops.transparent c = false)
    (hlen : self.buffer.length = canvasWidthInBytesImpl * height) :
    (setPixelImpl ops self x y c d).buffer.getD j 0 =
      (match x % 3 with
      | 0 =>
        if j = canvasWidthInBytes * y + x / 3 * 2 then
          packByte (self.buffer.getD (canvasWidthInBytes * y + x / 3 * 2) 0) 0xF8
            (packedLevel ops (pixelImpl ops self x y) c <<< 3)
        else self.buffer.getD j 0
      | 1 =>
        if j = canvasWidthInBytes * y + x / 3 * 2 then
          packByte (self.buffer.getD (canvasWidthInBytes * y + x / 3 * 2) 0) 0x07
            (packedLevel ops (pixelImpl ops self x y) c >>> 2)
        else if j = canvasWidthInBytes * y + x / 3 * 2 + 1 then
          packByte (self.buffer.getD (canvasWidthInBytes * y + x / 3 * 2 + 1) 0) 0xC0
            (packedLevel ops (pixelImpl ops self x y) c <<< 6)
        else self.buffer.getD j 0
      | _ =>
        if j = canvasWidthInBytes * y + x / 3 * 2 + 1 then
          packByte (self.buffer.getD (canvasWidthInBytes * y + x / 3 * 2 + 1) 0) 0x1F
            (packedLevel ops (pixelImpl ops self x y) c)
        else self.buffer.getD j 0) := by
  have hi := byteIndex_lt self x y hx hy hlen
  have hi0 : canvasWidthInBytes * y + x / 3 * 2 < self.buffer.length := by omega
  have h3 : x % 3 = 0 ∨ x % 3 = 1 ∨ x % 3 = 2 := by omega
  rw [setPixelImpl_buffer ops self x y c d hx hy ht]
  generalize canvasWidthInBytes * y + x / 3 * 2 = i at hi hi0 ⊢
  generalize packedLevel ops (pixelImpl ops self x y) c = v
  rcases h3 with h | h | h
  · simp only [h]
    exact getD_pack _ _ _ _ _ hi0
  · simp only [h]
    by_cases hj : j = i
    · subst hj
      rw [if_pos rfl, getD_andNotAt_ne _ _ _ _ (by omega : j + 1 ≠ j),
        getD_andNotAt_eq _ _ _ (by rw [length_orAt, length_orAt]; exact hi0),
        getD_orAt_ne _ _ _ _ (by omega : j + 1 ≠ j), getD_orAt_eq _ _ _ hi0]
      rfl
    · rw [if_neg hj]
      by_cases hj1 : j = i + 1
      · subst hj1
        rw [if_pos rfl,
          getD_andNotAt_eq _ _ _ (by rw [length_andNotAt, length_orAt, length_orAt]; exact hi),
          getD_andNotAt_ne _ _ _ _ (by omega : i ≠ i + 1),
          getD_orAt_eq _ _ _ (by rw [length_orAt]; exact hi),
          getD_orAt_ne _ _ _ _ (by omega : i ≠ i + 1)]
        rfl
      · rw [if_neg hj1, getD_andNotAt_ne _ _ _ _ (Ne.symm hj1),
          getD_andNotAt_ne _ _ _ _ (Ne.symm hj), getD_orAt_ne _ _ _ _ (Ne.symm hj1),
          getD_orAt_ne _ _ _ _ (Ne.symm hj)]
  · simp only [h]
    exact getD_pack _ _ _ _ _ hi

theorem ext_getD (l l' : List Nat) (hlen : l.length = l'.length)
    (h : ∀ j, l.getD j 0 = l'.getD j 0) : l = l' := by
  apply List.ext_getElem hlen
  intro n h1 h2
  have hn := h n
  rw [List.getD_eq_getElem?_getD, List.getD_eq_getElem?_getD, List.getElem?_eq_getElem h1,
    List.getElem?_eq_getElem h2] at hn
  exact hn

theorem getD_lt_of_bytes (l : List Nat) (hb : ∀ b ∈ l, b < 256) (j : Nat) :
    l.getD j 0 < 256 := by
  rw [List.getD_eq_getElem?_getD]
  by_cases hj : j < l.length
  · rw [List.getElem?_eq_getElem hj]
    exact hb _ (List.getElem_mem _)
  · rw [List.getElem?_eq_none (by omega)]
    decide

/-! ### Geometry -/

theorem getD_replicate (n a j : Nat) (h : j < n) : (List.replicate n a).getD j 0 = a := by
  simp [List.getD_eq_getElem?_getD, List.getElem?_replicate, h]

theorem initializeImpl_buffer (self : GDisplayMaschineMK1) :
    (initializeImpl self).buffer = List.replicate (canvasWidthInBytesImpl * height) 0xff := by
  simp [initializeImpl, black, fill, setDirty]

theorem byteIndex_bound (x y : Nat) (hx : x < 255) (hy : y < 64) :
    canvasWidthInBytes * y + x / 3 * 2 + 1 < canvasWidthInBytesImpl * height := by
  have hw : canvasWidthInBytesImpl = 170 := by decide
  have hh : height = 64 := rfl
  rw [canvasWidthInBytes_eq, hw, hh]
  omega

/-- The pixel read at `(x, y)` is a function of the two bytes at the pixel's byte index. -/
theorem pixelImpl_congr (ops : ColorOps C) (self other : GDisplayMaschineMK1) (x y : Nat)
    (h0 : other.buffer.getD (canvasWidthInBytes * y + x / 3 * 2) 0 =
      self.buffer.getD (canvasWidthInBytes * y + x / 3 * 2) 0)
    (h1 : other.buffer.getD (canvasWidthInBytes * y + x / 3 * 2 + 1) 0 =
      self.buffer.getD (canvasWidthInBytes * y + x / 3 * 2 + 1) 0) :
    pixelImpl ops other x y = pixelImpl ops self x y := by
  simp only [pixelImpl, h0, h1]

/-- A write leaves every byte other than the two at the pixel's byte index as it was. -/
theorem setPixelImpl_other_bytes (ops : ColorOps C) (self : GDisplayMaschineMK1) (x y : Nat)
    (c : C) (d : Bool) (j : Nat) (hx : x < width) (hy : y < height)
    (hlen : self.buffer.length = canvasWidthInBytesImpl * height)
    (hj0 : x % 3 = 2 ∨ j ≠ canvasWidthInBytes * y + x / 3 * 2)
    (hj1 : x % 3 = 0 ∨ j ≠ canvasWidthInBytes * y + x / 3 * 2 + 1) :
    (setPixelImpl ops self x y c d).buffer.getD j 0 = self.buffer.getD j 0 := by
  by_cases ht : ops.transparent c = true
  · simp [setPixelImpl, ht]
  · have ht0 : ops.transparent c = false := by simpa using ht
    have h3 : x % 3 = 0 ∨ x % 3 = 1 ∨ x % 3 = 2 := by omega
    rw [getD_setPixelImpl ops self x y c d j hx hy ht0 hlen]
    rcases h3 with h | h | h
    · simp only [h]
      rw [if_neg (by omega)]
    · simp only [h]
      rw [if_neg (by omega), if_neg (by omega)]
    · simp only [h]
      rw [if_neg (by omega)]

theorem complement_parts : ∀ v, v < 32 →
    (not8 (v <<< 3) &&& 0xF8) >>> 3 = 31 - v ∧
    not8 (v >>> 2) &&& 0x07 = 7 - (v >>> 2) ∧
    (not8 (v <<< 6) &&& 0xC0) >>> 6 = 3 - (v &&& 3) ∧
    not8 v &&& 0x1F = 31 - v := by
  decide

/-- Claim C12 (active-low bit layout). For every in-range `(x, y)`, every buffer of the
initialized size and every colour that is not transparent and has no invert blend mode, of
luminance `L ≤ 255`: with `level` the integer nearest to `L/255*31` (it lies in `0 .. 31`) and
`i = rowBytes*y + (x/3)*2`, after the write bits 7-3 of byte `i` hold `31 - level` when
`x mod 3 = 0`; bits 2-0 of byte `i` hold `7 - (level >> 2)` and bits 7-6 of byte `i + 1` hold
`3 - (level & 3)` when `x mod 3 = 1`; bits 4-0 of byte `i + 1` hold `31 - level` when
`x mod 3 = 2`. -/
theorem active_low_bit_layout (ops : ColorOps C) (self : GDisplayMaschineMK1) (x y : Nat)
    (c : C) (d : Bool) (hx : x < 255) (hy : y < 64)
    (hlen : self.buffer.length = canvasWidthInBytesImpl * height)
    (ht : ops.transparent c = false) (hb : ops.blendModeIsInvert c = false)
    (hL : ops.mono c ≤ 255) :
    (toLevel (ops.mono c) ≤ 31 ∧
      2 * 255 * toLevel (ops.mono c) ≤ 2 * 31 * ops.mono c + 255 ∧
      2 * 31 * ops.mono c + 255 < 2 * 255 * (toLevel (ops.mono c) + 1)) ∧
    (x % 3 = 0 →
      ((setPixelImpl ops self x y c d).buffer.getD (canvasWidthInBytes * y + x / 3 * 2) 0
        &&& 0xF8) >>> 3 = 31 - toLevel (ops.mono c)) ∧
    (x % 3 = 1 →
      (setPixelImpl ops self x y c d).buffer.getD (canvasWidthInBytes * y + x / 3 * 2) 0
        &&& 0x07 = 7 - (toLevel (ops.mono c) >>> 2) ∧
      ((setPixelImpl ops self x y c d).buffer.getD (canvasWidthInBytes * y + x / 3 * 2 + 1) 0
        &&& 0xC0) >>> 6 = 3 - (toLevel (ops.mono c) &&& 3)) ∧
    (x % 3 = 2 →
      (setPixelImpl ops self x y c d).buffer.getD (canvasWidthInBytes * y + x / 3 * 2 + 1) 0
        &&& 0x1F = 31 - toLevel (ops.mono c)) := by
  have hlev : packedLevel ops (pixelImpl ops self x y) c = toLevel (ops.mono c) := by
    simp [packedLevel, hb]
  have hv : toLevel (ops.mono c) < 32 := toLevel_lt _ hL
  obtain ⟨f0, f1, f2, f3⟩ := complement_parts _ hv
  have hq : (ops.mono c * 62 + 255) / 510 ≤ 31 := by omega
  have hdef : toLevel (ops.mono c) = (ops.mono c * 62 + 255) / 510 := by
    unfold toLevel
    exact Nat.mod_eq_of_lt (by omega)
  refine ⟨⟨by omega, by rw [hdef]; omega, by rw [hdef]; omega⟩, ?_, ?_, ?_⟩
  · intro h
    rw [getD_setPixelImpl ops self x y c d _ hx hy ht hlen]
    simp only [h, if_true, hlev]
    rw [packByte_field _ _ _ (by decide)]
    exact f0
  · intro h
    rw [getD_setPixelImpl ops self x y c d _ hx hy ht hlen,
      getD_setPixelImpl ops self x y c d _ hx hy ht hlen]
    simp only [h, if_true, hlev]
    rw [if_neg (by omega), packByte_field _ _ _ (by decide), packByte_field _ _ _ (by decide)]
    exact ⟨f1, f2⟩
  · intro h
    rw [getD_setPixelImpl ops self x y c d _ hx hy ht hlen]
    simp only [h, if_true, hlev]
    rw [packByte_field _ _ _ (by decide)]
    exact f3

theorem active_low_bit_layout_witness :
    ((setPixelImpl grayOps (initializeImpl ⟨[], []⟩) 100 20 ⟨200, .Normal⟩ true).buffer.getD
        (canvasWidthInBytes * 20 + 100 / 3 * 2) 0 &&& 0x07 = 7 - (toLevel 200 >>> 2) ∧
      ((setPixelImpl grayOps (initializeImpl ⟨[], []⟩) 100 20 ⟨200, .Normal⟩ true).buffer.getD
        (canvasWidthInBytes * 20 + 100 / 3 * 2 + 1) 0 &&& 0xC0) >>> 6 = 3 - (toLevel 200 &&& 3)) ∧
    toLevel 200 = 24 :=
  ⟨(active_low_bit_layout grayOps (initializeImpl ⟨[], []⟩) 100 20 ⟨200, .Normal⟩ true
      (by decide) (by decide) (initializeImpl_length _) rfl rfl (by decide)).2.2.1 (by decide),
   by decide⟩

/-! ### black and white -/

theorem storedField_replicate (n a x y : Nat) (hx : x < 255) (hy : y < 64)
    (hn : n = canvasWidthInBytesImpl * height) :
    storedField (List.replicate n a) x y =
      (match x % 3 with
      | 0 => (a &&& 0xF8) >>> 3
      | 1 => ((a &&& 0x07) <<< 2) ||| ((a &&& 0xC0) >>> 6)
      | _ => a &&& 0x1F) := by
  have hi := byteIndex_bound x y hx hy
  rw [← hn] at hi
  have hi0 : canvasWidthInBytes * y + x / 3 * 2 < n := by omega
  have h3 : x % 3 = 0 ∨ x % 3 = 1 ∨ x % 3 = 2 := by omega
  rcases h3 with h | h | h <;>
    simp only [storedField, h, getD_replicate _ _ _ hi, getD_replicate _ _ _ hi0]

/-- Claim C13 (black and white decode to the extremes). On a buffer of the initialized size,
after `black()` the colour read at every `x < 255`, `y < 64` has luminance 0, and after
`white()` it has luminance 255; no stored field decodes to a luminance above 255. The colour
operations are any for which the colour built from a luminance byte has that luminance. -/
theorem black_white_extremes (ops : ColorOps C) (self : GDisplayMaschineMK1) (x y f : Nat)
    (hmono : ∀ v, v < 256 → ops.mono (ops.ofMono v) = v)
    (hlen : self.buffer.length = canvasWidthInBytesImpl * height)
    (hx : x < 255) (hy : y < 64) :
    ops.mono (pixelImpl ops (black self) x y) = 0 ∧
    ops.mono (pixelImpl ops (white self) x y) = 255 ∧
    toLuminance f ≤ 255 := by
  have h3 : x % 3 = 0 ∨ x % 3 = 1 ∨ x % 3 = 2 := by omega
  have hbk : (black self).buffer = List.replicate self.buffer.length 0xff := rfl
  have hwh : (white self).buffer = List.replicate self.buffer.length 0x00 := rfl
  have hlum : toLuminance f ≤ 255 := Nat.le_of_lt_succ (toLuminance_lt f)
  refine ⟨?_, ?_, hlum⟩
  · rw [pixelImpl_eq ops _ x y hx hy, hmono _ (toLuminance_lt _), hbk,
      storedField_replicate _ _ x y hx hy hlen]
    rcases h3 with h | h | h <;> simp only [h] <;> decide
  · rw [pixelImpl_eq ops _ x y hx hy, hmono _ (toLuminance_lt _), hwh,
      storedField_replicate _ _ x y hx hy hlen]
    rcases h3 with h | h | h <;> simp only [h] <;> decide

theorem black_white_extremes_witness :
    grayOps.mono (pixelImpl grayOps (black (initializeImpl ⟨[], []⟩)) 254 63) = 0 ∧
    grayOps.mono (pixelImpl grayOps (white (initializeImpl ⟨[], []⟩)) 254 63) = 255 :=
  ⟨(black_white_extremes grayOps (initializeImpl ⟨[], []⟩) 254 63 0 (fun _ _ => rfl)
      (initializeImpl_length _) (by decide) (by decide)).1,
   (black_white_extremes grayOps (initializeImpl ⟨[], []⟩) 254 63 0 (fun _ _ => rfl)
      (initializeImpl_length _) (by decide) (by decide)).2.1⟩

/-! ### Rejected writes -/

/-- Claim C15 (rejected writes are no-ops). For every display state and every value of
`markDirty`, `setPixelImpl` returns the state unchanged, buffer and dirty flags alike, when
the colour is transparent, or `x ≥ width`, or `y ≥ height`. -/
theorem rejected_write_is_noop (ops : ColorOps C) (self : GDisplayMaschineMK1) (x y : Nat)
    (c : C) (markDirty : Bool)
    (h : ops.transparent c = true ∨ x ≥ width ∨ y ≥ height) :
    setPixelImpl ops self x y c markDirty = self ∧
    (setPixelImpl ops self x y c markDirty).buffer = self.buffer ∧
    (setPixelImpl ops self x y c markDirty).dirtyChunks = self.dirtyChunks := by
  have hc : x ≥ width ∨ y ≥ height ∨ ops.transparent c = true := by
    rcases h with h | h | h
    · exact Or.inr (Or.inr h)
    · exact Or.inl h
    · exact Or.inr (Or.inl h)
  have he : setPixelImpl ops self x y c markDirty = self := by
    unfold setPixelImpl
    rw [if_pos hc]
  exact ⟨he, by rw [he], by rw [he]⟩

theorem rejected_write_is_noop_witness :
    setPixelImpl grayOps blackSentDisplay 255 0 ⟨200, .Normal⟩ true = blackSentDisplay ∧
    setPixelImpl grayOps blackSentDisplay 3 64 ⟨200, .Normal⟩ true = blackSentDisplay ∧
    setPixelImpl grayOps blackSentDisplay 3 5 ⟨200, .Transparent⟩ true = blackSentDisplay :=
  ⟨(rejected_write_is_noop grayOps blackSentDisplay 255 0 ⟨200, .Normal⟩ true
      (Or.inr (Or.inl (by decide)))).1,
   (rejected_write_is_noop grayOps blackSentDisplay 3 64 ⟨200, .Normal⟩ true
      (Or.inr (Or.inr (by decide)))).1,
   (rejected_write_is_noop grayOps blackSentDisplay 3 5 ⟨200, .Transparent⟩ true
      (Or.inl rfl)).1⟩

/-! ### Dirty chunks -/

theorem setPixelImpl_dirtyChunks (ops : ColorOps C) (self : GDisplayMaschineMK1) (x y : Nat)
    (c : C) (d : Bool) (hx : x < width) (hy : y < height) (ht : ops.transparent c = false) :
    (setPixelImpl ops self x y c d).dirtyChunks =
      if (d && ops.ne (pixelImpl ops self x y) c) = true then
        self.dirtyChunks.set (chunkOfRow y) true
      else self.dirtyChunks := by
  have hb : ¬ (x ≥ width ∨ y ≥ height ∨ ops.transparent c = true) := by
    simp [ht]; omega
  simp only [setPixelImpl, hb, if_false]
  split <;> rfl

theorem dirtyChunks_unchanged_of_eq (ops : ColorOps C) (self : GDisplayMaschineMK1)
    (x y : Nat) (c : C) (d : Bool)
    (h : (d && ops.ne (pixelImpl ops self x y) c) = false) :
    (setPixelImpl ops self x y c d).dirtyChunks = self.dirtyChunks := by
  unfold setPixelImpl
  split
  · rfl
  · simp only [h]
    rfl

theorem chunkOfRow_lt (y : Nat) (hy : y < 64) : chunkOfRow y < numberOfChunks := by
  have h1 : numberOfChunks = 22 := rfl
  have h2 : height = 64 := rfl
  unfold chunkOfRow
  rw [h1, h2]
  omega

theorem getD_set_true (l : List Bool) (i : Nat) (h : i < l.length) :
    (l.set i true).getD i false = true := by
  simp [List.getD_eq_getElem?_getD, List.getElem?_set, h]

theorem grayOps_ne (a b : GrayColor) : grayOps.ne a b = true ↔ a ≠ b := by
  simp [grayOps]

theorem pixelImpl_blackSent (x y : Nat) (hx : x < 255) (hy : y < 64) :
    pixelImpl grayOps blackSentDisplay x y = ⟨0, .Normal⟩ := by
  have h3 : x % 3 = 0 ∨ x % 3 = 1 ∨ x % 3 = 2 := by omega
  have hb : blackSentDisplay.buffer = List.replicate (canvasWidthInBytesImpl * height) 0xff :=
    rfl
  rw [pixelImpl_eq grayOps _ x y hx hy, hb, storedField_replicate _ _ x y hx hy rfl]
  rcases h3 with h | h | h <;> simp only [h] <;> decide

/-- Claim C14 (dirty marking against the current colour). For every in-range `(x, y)`, every
display state and every colour `c` that is not transparent (with or without the invert blend
mode): with `markDirty = true` the dirty flags are unchanged when `c` equals the colour that
`pixelImpl` returns before the call; when `c` differs from it they become those that
`setDirtyChunk(y)` produces, the flag of the chunk containing row `y` being set; with
`markDirty = false` the dirty flags are unchanged. The colour operations are any whose
`operator !=` is the negation of equality. -/
theorem dirty_marking (ops : ColorOps C) (self : GDisplayMaschineMK1) (x y : Nat) (c : C)
    (hne : ∀ a b, ops.ne a b = true ↔ a ≠ b)
    (hx : x < 255) (hy : y < 64) (ht : ops.transparent c = false) :
    (c = pixelImpl ops self x y →
      (setPixelImpl ops self x y c true).dirtyChunks = self.dirtyChunks) ∧
    (c ≠ pixelImpl ops self x y →
      (setPixelImpl ops self x y c true).dirtyChunks = (self.setDirtyChunk y).dirtyChunks ∧
      (self.dirtyChunks.length = numberOfChunks →
        (setPixelImpl ops self x y c true).dirtyChunks.getD (chunkOfRow y) false = true)) ∧
    (setPixelImpl ops self x y c false).dirtyChunks = self.dirtyChunks := by
  refine ⟨?_, ?_, ?_⟩
  · intro h
    apply dirtyChunks_unchanged_of_eq
    have : ops.ne (pixelImpl ops self x y) c = false := by
      cases hv : ops.ne (pixelImpl ops self x y) c
      · rfl
      · exact absurd h.symm ((hne _ _).mp hv)
    simp [this]
  · intro h
    have hv : ops.ne (pixelImpl ops self x y) c = true := (hne _ _).mpr (Ne.symm h)
    have hd : (setPixelImpl ops self x y c true).dirtyChunks =
        self.dirtyChunks.set (chunkOfRow y) true := by
      rw [setPixelImpl_dirtyChunks ops self x y c true hx hy ht]
      simp [hv]
    refine ⟨hd, ?_⟩
    intro hl
    rw [hd]
    exact getD_set_true _ _ (by rw [hl]; exact chunkOfRow_lt y hy)
  · exact dirtyChunks_unchanged_of_eq ops self x y c false rfl

theorem dirty_marking_witness :
    (setPixelImpl grayOps blackSentDisplay 0 0 ⟨200, .Normal⟩ true).dirtyChunks.getD
      (chunkOfRow 0) false = true ∧
    (setPixelImpl grayOps blackSentDisplay 0 0 ⟨200, .Normal⟩ false).dirtyChunks =
      blackSentDisplay.dirtyChunks :=
  ⟨((dirty_marking grayOps blackSentDisplay 0 0 ⟨200, .Normal⟩ grayOps_ne (by decide)
      (by decide) rfl).2.1 (by
        rw [pixelImpl_blackSent 0 0 (by decide) (by decide)]
        decide)).2 rfl,
   (dirty_marking grayOps blackSentDisplay 0 0 ⟨200, .Normal⟩ grayOps_ne (by decide)
      (by decide) rfl).2.2⟩

/-! ### Index bounds -/

theorem getElem?_of_lt (l : List Nat) (i : Nat) (h : i < l.length) :
    l[i]? = some (l.getD i 0) := by
  rw [List.getD_eq_getElem?_getD, List.getElem?_eq_getElem h]
  rfl

theorem getElem?_of_le (l : List Nat) (i : Nat) (h : l.length ≤ i) : l[i]? = none :=
  List.getElem?_eq_none h

theorem orAtChecked_of_lt (l : List Nat) (i m : Nat) (h : i < l.length) :
    orAtChecked l i m = some (orAt l i m) := by
  simp only [orAtChecked, getElem?_of_lt l i h, orAt]

theorem andNotAtChecked_of_lt (l : List Nat) (i v : Nat) (h : i < l.length) :
    andNotAtChecked l i v = some (andNotAt l i v) := by
  simp only [andNotAtChecked, getElem?_of_lt l i h, andNotAt]

theorem orAtChecked_of_le (l : List Nat) (i m : Nat) (h : l.length ≤ i) :
    orAtChecked l i m = none := by
  simp only [orAtChecked, getElem?_of_le l i h]

/-- The checked read fails when an index it uses is outside the buffer. -/
theorem pixelImplChecked_of_not_inside (ops : ColorOps C) (self : GDisplayMaschineMK1)
    (x y : Nat) (hx : x < width) (hy : y < height)
    (hout : ¬ indicesInside self.buffer.length x y) :
    pixelImplChecked ops self x y = none := by
  have hb : ¬ (x ≥ width ∨ y ≥ height) := by omega
  have h3 : x % 3 = 0 ∨ x % 3 = 1 ∨ x % 3 = 2 := by omega
  simp only [pixelImplChecked, hb, if_false]
  rcases h3 with h | h | h
  · have hle : self.buffer.length ≤ canvasWidthInBytes * y + x / 3 * 2 := by
      by_contra hc
      exact hout ⟨fun _ => by omega, fun h' => absurd h h'⟩
    simp only [h, Nat.zero_mod, getElem?_of_le _ _ hle]
  · have hle : self.buffer.length ≤ canvasWidthInBytes * y + x / 3 * 2 + 1 := by
      by_contra hc
      exact hout ⟨fun h' => by omega, fun _ => by omega⟩
    simp only [h, Nat.one_mod, getElem?_of_le _ _ hle]
    split <;> simp_all
  · have hle : self.buffer.length ≤ canvasWidthInBytes * y + x / 3 * 2 + 1 := by
      by_contra hc
      exact hout ⟨fun h' => by omega, fun _ => by omega⟩
    simp only [h, Nat.reduceMod, getElem?_of_le _ _ hle]

/-- The checked write of a colour that is not transparent fails when an index it uses is
outside the buffer. -/
theorem setPixelImplChecked_of_not_inside (ops : ColorOps C) (self : GDisplayMaschineMK1)
    (x y : Nat) (c : C) (d : Bool) (hx : x < width) (hy : y < height)
    (ht : ops.transparent c = false) (hout : ¬ indicesInside self.buffer.length x y) :
    setPixelImplChecked ops self x y c d = none := by
  have hrej : ¬ (x ≥ width ∨ y ≥ height ∨ ops.transparent c = true) := by
    simp [ht]; omega
  simp only [setPixelImplChecked, hrej, if_false,
    pixelImplChecked_of_not_inside ops self x y hx hy hout]

theorem indicesInside_of_length (length x y : Nat) (hx : x < 255) (hy : y < 64)
    (hlen : length = canvasWidthInBytesImpl * height) : indicesInside length x y := by
  have hi := byteIndex_bound x y hx hy
  rw [← hlen] at hi
  exact ⟨fun _ => by omega, fun _ => hi⟩

/-- Claim C20 (buffer indexing is in bounds). The buffer that `initializeImpl` leaves has
`canvasWidthInBytesImpl() * 64` bytes and writes keep that length. In a buffer of that length,
for every `x < 255` and `y < 64`, `pixelImpl` and `setPixelImpl` run with every `buffer()[i]`
checked against the buffer length complete and give the results of the unchecked methods: no
index they read or write reaches the length. In a buffer of any length the checked read, and
the checked write of a colour that is not transparent, complete exactly when the byte index
`stride*y + (x/3)*2` (for `x mod 3 = 0`) or its successor (otherwise) is below the length;
both are below the initialized length, and two different pixel groups `(x/3, y)` have no
byte index in common. -/
theorem buffer_indexing_in_bounds (ops : ColorOps C) (self other : GDisplayMaschineMK1)
    (x y x' y' : Nat) (c : C) (d : Bool)
    (hlen : self.buffer.length = canvasWidthInBytesImpl * height)
    (hx : x < 255) (hy : y < 64) (hx' : x' < 255) :
    (initializeImpl self).buffer.length = canvasWidthInBytesImpl * 64 ∧
    (setPixelImpl ops self x y c d).buffer.length = self.buffer.length ∧
    pixelImplChecked ops self x y = some (pixelImpl ops self x y) ∧
    setPixelImplChecked ops self x y c d = some (setPixelImpl ops self x y c d) ∧
    ((pixelImplChecked ops other x y).isSome = true ↔
      indicesInside other.buffer.length x y) ∧
    (ops.transparent c = false →
      ((setPixelImplChecked ops other x y c d).isSome = true ↔
        indicesInside other.buffer.length x y)) ∧
    canvasWidthInBytes * y + x / 3 * 2 < self.buffer.length ∧
    canvasWidthInBytes * y + x / 3 * 2 + 1 < self.buffer.length ∧
    ((x' / 3, y') ≠ (x / 3, y) →
      canvasWidthInBytes * y' + x' / 3 * 2 ≠ canvasWidthInBytes * y + x / 3 * 2 ∧
      canvasWidthInBytes * y' + x' / 3 * 2 ≠ canvasWidthInBytes * y + x / 3 * 2 + 1 ∧
      canvasWidthInBytes * y' + x' / 3 * 2 + 1 ≠ canvasWidthInBytes * y + x / 3 * 2 ∧
      canvasWidthInBytes * y' + x' / 3 * 2 + 1 ≠ canvasWidthInBytes * y + x / 3 * 2 + 1) := by
  have hi := byteIndex_bound x y hx hy
  rw [← hlen] at hi
  have hin := indicesInside_of_length self.buffer.length x y hx hy hlen
  have hw : width = 255 := rfl
  have hh : height = 64 := rfl
  have hreads : ∀ s : GDisplayMaschineMK1, indicesInside s.buffer.length x y →
      pixelImplChecked ops s x y = some (pixelImpl ops s x y) := by
    intro s hin
    have hb : ¬ (x ≥ width ∨ y ≥ height) := by omega
    have h3 : x % 3 = 0 ∨ x % 3 = 1 ∨ x % 3 = 2 := by omega
    obtain ⟨hin0, hin1⟩ := hin
    simp only [pixelImplChecked, pixelImpl, hb, if_false]
    rcases h3 with h | h | h
    · simp only [h, Nat.zero_mod, getElem?_of_lt _ _ (hin0 h)]
    · have h1 := hin1 (by omega)
      simp only [h, Nat.one_mod, getElem?_of_lt _ _ h1,
        getElem?_of_lt _ _ (Nat.lt_of_succ_lt h1)]
    · have h1 := hin1 (by omega)
      simp only [h, Nat.reduceMod, getElem?_of_lt _ _ h1]
  have hwrites : ∀ s : GDisplayMaschineMK1, indicesInside s.buffer.length x y →
      setPixelImplChecked ops s x y c d = some (setPixelImpl ops s x y c d) := by
    intro s hin
    by_cases hrej : x ≥ width ∨ y ≥ height ∨ ops.transparent c = true
    · simp only [setPixelImplChecked, setPixelImpl, hrej, if_true]
    · have h3 : x % 3 = 0 ∨ x % 3 = 1 ∨ x % 3 = 2 := by omega
      obtain ⟨hin0, hin1⟩ := hin
      simp only [setPixelImplChecked, setPixelImpl, hrej, if_false,
        hreads s ⟨hin0, hin1⟩]
      generalize canvasWidthInBytes * y + x / 3 * 2 = i at hin0 hin1
      generalize (if ops.blendModeIsInvert c = true then
        toLevel (ops.mono (ops.invert (pixelImpl ops s x y))) else toLevel (ops.mono c)) = v
      rcases h3 with h | h | h
      · have h0 := hin0 h
        have e1 := orAtChecked_of_lt s.buffer i 0xF8 h0
        have e2 := andNotAtChecked_of_lt (orAt s.buffer i 0xF8) i (v <<< 3)
          (by rw [length_orAt]; exact h0)
        simp only [h, e1, Option.some_bind, e2]
        split <;> rfl
      · have h1 := hin1 (by omega)
        have h0 := Nat.lt_of_succ_lt h1
        have e1 := orAtChecked_of_lt s.buffer i 0x07 h0
        have e2 := orAtChecked_of_lt (orAt s.buffer i 0x07) (i + 1) 0xC0
          (by rw [length_orAt]; exact h1)
        have e3 := andNotAtChecked_of_lt (orAt (orAt s.buffer i 0x07) (i + 1) 0xC0) i (v >>> 2)
          (by rw [length_orAt, length_orAt]; exact h0)
        have e4 := andNotAtChecked_of_lt
          (andNotAt (orAt (orAt s.buffer i 0x07) (i + 1) 0xC0) i (v >>> 2)) (i + 1) (v <<< 6)
          (by rw [length_andNotAt, length_orAt, length_orAt]; exact h1)
        simp only [h, e1, Option.some_bind, e2, e3, e4]
        split <;> rfl
      · have h1 := hin1 (by omega)
        have e1 := orAtChecked_of_lt s.buffer (i + 1) 0x1F h1
        have e2 := andNotAtChecked_of_lt (orAt s.buffer (i + 1) 0x1F) (i + 1) v
          (by rw [length_orAt]; exact h1)
        simp only [h, e1, Option.some_bind, e2]
        split <;> rfl
  refine ⟨initializeImpl_length self, length_setPixelImpl ops self x y c d,
    hreads self hin, hwrites self hin, ?_, ?_, by omega, hi, ?_⟩
  · constructor
    · intro h
      by_contra hout
      rw [pixelImplChecked_of_not_inside ops other x y hx hy hout] at h
      exact Bool.noConfusion h
    · intro h
      rw [hreads other h]
      rfl
  · intro ht
    constructor
    · intro h
      by_contra hout
      rw [setPixelImplChecked_of_not_inside ops other x y c d hx hy ht hout] at h
      exact Bool.noConfusion h
    · intro h
      rw [hwrites other h]
      rfl
  · intro hg
    have hg' : x' / 3 ≠ x / 3 ∨ y' ≠ y := by
      by_contra hcon
      have h1 : x' / 3 = x / 3 := by omega
      have h2 : y' = y := by omega
      exact hg (by rw [h1, h2])
    rw [canvasWidthInBytes_eq]
    omega

theorem buffer_indexing_in_bounds_witness :
    (pixelImplChecked grayOps (initializeImpl ⟨[], []⟩) 254 63 =
        some (pixelImpl grayOps (initializeImpl ⟨[], []⟩) 254 63) ∧
      setPixelImplChecked grayOps (initializeImpl ⟨[], []⟩) 254 63 ⟨0, .Normal⟩ false =
        some (setPixelImpl grayOps (initializeImpl ⟨[], []⟩) 254 63 ⟨0, .Normal⟩ false)) ∧
    ¬ (setPixelImplChecked grayOps ⟨List.replicate 10879 0xff, []⟩ 254 63 ⟨0, .Normal⟩
        false).isSome = true ∧
    canvasWidthInBytes * 63 + 254 / 3 * 2 + 1 < (initializeImpl ⟨[], []⟩).buffer.length ∧
    canvasWidthInBytes * 1 + 0 / 3 * 2 ≠ canvasWidthInBytes * 0 + 254 / 3 * 2 + 1 :=
  ⟨⟨(buffer_indexing_in_bounds grayOps (initializeImpl ⟨[], []⟩) ⟨[], []⟩ 254 63 0 0
        ⟨0, .Normal⟩ false (initializeImpl_length _) (by decide) (by decide) (by decide)).2.2.1,
     (buffer_indexing_in_bounds grayOps (initializeImpl ⟨[], []⟩) ⟨[], []⟩ 254 63 0 0
        ⟨0, .Normal⟩ false (initializeImpl_length _) (by decide) (by decide)
        (by decide)).2.2.2.1⟩,
   fun h => by
    have hin := ((buffer_indexing_in_bounds grayOps (initializeImpl ⟨[], []⟩)
      ⟨List.replicate 10879 0xff, []⟩ 254 63 0 0 ⟨0, .Normal⟩ false (initializeImpl_length _)
      (by decide) (by decide) (by decide)).2.2.2.2.2.1 rfl).mp h
    have hlt := hin.2 (by decide)
    rw [List.length_replicate, canvasWidthInBytes_eq] at hlt
    omega,
   (buffer_indexing_in_bounds grayOps (initializeImpl ⟨[], []⟩) ⟨[], []⟩ 254 63 0 0
      ⟨0, .Normal⟩ false (initializeImpl_length _) (by decide) (by decide)
      (by decide)).2.2.2.2.2.2.2.1,
   ((buffer_indexing_in_bounds grayOps (initializeImpl ⟨[], []⟩) ⟨[], []⟩ 254 0 0 1
      ⟨0, .Normal⟩ false (initializeImpl_length _) (by decide) (by decide)
      (by decide)).2.2.2.2.2.2.2.2 (by decide)).2.1⟩

/-! ### Dirty marking and the decoded colour -/

/-- Writing luminance 1 to the pixel `(0, 0)` of the black, fully sent display: the chunk of
row 0 becomes dirty and the colour read back is the one read before. -/
theorem black_sent_write_one :
    blackSentDisplay.buffer.length = canvasWidthInBytesImpl * height ∧
    blackSentDisplay.dirtyChunks.getD (chunkOfRow 0) false = false ∧
    (setPixelImpl grayOps blackSentDisplay 0 0 ⟨1, .Normal⟩ true).dirtyChunks.getD
      (chunkOfRow 0) false = true ∧
    pixelImpl grayOps (setPixelImpl grayOps blackSentDisplay 0 0 ⟨1, .Normal⟩ true) 0 0 =
      pixelImpl grayOps blackSentDisplay 0 0 := by
  have hlen : blackSentDisplay.buffer.length = canvasWidthInBytesImpl * height := by
    simp [blackSentDisplay]
  have hold := pixelImpl_blackSent 0 0 (by decide) (by decide)
  have hd : (setPixelImpl grayOps blackSentDisplay 0 0 ⟨1, .Normal⟩ true).dirtyChunks =
      blackSentDisplay.dirtyChunks.set (chunkOfRow 0) true := by
    rw [setPixelImpl_dirtyChunks grayOps blackSentDisplay 0 0 ⟨1, .Normal⟩ true (by decide)
      (by decide) rfl, hold]
    rfl
  have hlev : packedLevel grayOps (pixelImpl grayOps blackSentDisplay 0 0) ⟨1, .Normal⟩ = 0 :=
    rfl
  refine ⟨hlen, by decide, ?_, ?_⟩
  · rw [hd]
    exact getD_set_true _ _ (by decide)
  · rw [pixelImpl_eq grayOps _ 0 0 (by decide) (by decide),
      storedField_setPixelImpl grayOps blackSentDisplay 0 0 ⟨1, .Normal⟩ true (by decide)
        (by decide) rfl hlen (by rw [hlev]; decide), hlev, hold]
    decide

/-- Claim C18 fails as stated: on the black, fully sent display, `setPixelImpl` at `(0, 0)`
with a colour of luminance 1 (not transparent, no invert blend mode) and `markDirty = true`
adds the chunk of row 0 to the dirty chunks, although luminance 1 packs to level 0 and the
colour read at `(0, 0)` after the call equals the colour read before. -/
theorem dirty_without_decoded_change :
    grayOps.transparent ⟨1, .Normal⟩ = false ∧
    grayOps.blendModeIsInvert ⟨1, .Normal⟩ = false ∧
    blackSentDisplay.dirtyChunks.getD (chunkOfRow 0) false = false ∧
    (setPixelImpl grayOps blackSentDisplay 0 0 ⟨1, .Normal⟩ true).dirtyChunks.getD
      (chunkOfRow 0) false = true ∧
    pixelImpl grayOps (setPixelImpl grayOps blackSentDisplay 0 0 ⟨1, .Normal⟩ true) 0 0 =
      pixelImpl grayOps blackSentDisplay 0 0 :=
  ⟨rfl, rfl, black_sent_write_one.2.1, black_sent_write_one.2.2.1,
    black_sent_write_one.2.2.2⟩

/-- Claim C18, amended. If `setPixelImpl` with `markDirty = true` adds the chunk containing row
`y` to the dirty chunks (its flag is clear before the call and set after it), then the
requested colour differs from the colour that `pixelImpl` returns at `(x, y)` before the call,
and the write was not rejected. The colour operations are any whose `operator !=` is the
negation of equality. -/
theorem dirty_only_if_requested_colour_differs (ops : ColorOps C) (self : GDisplayMaschineMK1)
    (x y : Nat) (c : C)
    (hne : ∀ a b, ops.ne a b = true ↔ a ≠ b)
    (hbefore : self.dirtyChunks.getD (chunkOfRow y) false = false)
    (hafter : (setPixelImpl ops self x y c true).dirtyChunks.getD (chunkOfRow y) false = true) :
    c ≠ pixelImpl ops self x y ∧
    ops.transparent c = false ∧ x < width ∧ y < height := by
  have hchg : (setPixelImpl ops self x y c true).dirtyChunks ≠ self.dirtyChunks := by
    intro h
    rw [h, hbefore] at hafter
    exact Bool.noConfusion hafter
  refine ⟨?_, ?_⟩
  · intro h
    apply hchg
    apply dirtyChunks_unchanged_of_eq
    have : ops.ne (pixelImpl ops self x y) c = false := by
      cases hv : ops.ne (pixelImpl ops self x y) c
      · rfl
      · exact absurd h.symm ((hne _ _).mp hv)
    simp [this]
  · by_contra hcon
    apply hchg
    have hrej : x ≥ width ∨ y ≥ height ∨ ops.transparent c = true := by
      by_contra hn
      apply hcon
      have ht : ops.transparent c = false := by
        cases hv : ops.transparent c
        · rfl
        · exact absurd (Or.inr (Or.inr hv)) hn
      exact ⟨ht, by omega, by omega⟩
    unfold setPixelImpl
    rw [if_pos hrej]

theorem dirty_only_if_requested_colour_differs_witness :
    (⟨1, .Normal⟩ : GrayColor) ≠ pixelImpl grayOps blackSentDisplay 0 0 ∧
    grayOps.transparent ⟨1, .Normal⟩ = false ∧ 0 < width ∧ 0 < height :=
  dirty_only_if_requested_colour_differs grayOps blackSentDisplay 0 0 ⟨1, .Normal⟩ grayOps_ne
    black_sent_write_one.2.1 black_sent_write_one.2.2.1

/-! ### The unpacking formula -/

theorem storedField_le (buffer : List Nat) (x y : Nat) : storedField buffer x y ≤ 31 := by
  have h3 : x % 3 = 0 ∨ x % 3 = 1 ∨ x % 3 = 2 := by omega
  rcases h3 with h | h | h
  · simp only [storedField, h]
    have h1 : buffer.getD (canvasWidthInBytes * y + x / 3 * 2) 0 &&& 0xF8 ≤ 0xF8 :=
      Nat.and_le_right
    rw [Nat.shiftRight_eq_div_pow]
    omega
  · simp only [storedField, h]
    have h1 : buffer.getD (canvasWidthInBytes * y + x / 3 * 2) 0 &&& 0x07 ≤ 0x07 :=
      Nat.and_le_right
    have h2 : buffer.getD (canvasWidthInBytes * y + x / 3 * 2 + 1) 0 &&& 0xC0 ≤ 0xC0 :=
      Nat.and_le_right
    have h3 : (buffer.getD (canvasWidthInBytes * y + x / 3 * 2) 0 &&& 0x07) <<< 2 < 2 ^ 5 := by
      rw [Nat.shiftLeft_eq]; omega
    have h4 : (buffer.getD (canvasWidthInBytes * y + x / 3 * 2 + 1) 0 &&& 0xC0) >>> 6 < 2 ^ 5 := by
      rw [Nat.shiftRight_eq_div_pow]; omega
    have := Nat.or_lt_two_pow h3 h4
    omega
  · simp only [storedField, h]
    exact Nat.and_le_right

theorem unpack_facts : ∀ f, f < 32 →
    toLuminance f = 255 - f * 255 / 31 ∧
    toLevel (toLuminance f) = 31 - f ∧
    ((f = 0 ∨ f = 31) → toLuminance f = unpackAsSpecified f) ∧
    (0 < f → f < 31 → toLuminance f = unpackAsSpecified f + 1) := by
  decide

/-- Claim C17 fails as stated: after luminance 247 is written to the pixel `(0, 0)` of an
initialized display the stored field is 1 and `pixelImpl` returns luminance 247, while
complementing the field to level 30 and rescaling `30*255/31` gives 246. -/
theorem unpack_is_not_complement_then_rescale :
    storedField
      (setPixelImpl grayOps (initializeImpl ⟨[], []⟩) 0 0 ⟨247, .Normal⟩ false).buffer 0 0 = 1 ∧
    grayOps.mono (pixelImpl grayOps
      (setPixelImpl grayOps (initializeImpl ⟨[], []⟩) 0 0 ⟨247, .Normal⟩ false) 0 0) = 247 ∧
    unpackAsSpecified 1 = 246 := by
  have hlev : ∀ old : GrayColor, packedLevel grayOps old ⟨247, .Normal⟩ = 30 := by
    intro old
    have ht : toLevel 247 = 30 := by decide
    simp [packedLevel, grayOps, ht]
  have hf : storedField
      (setPixelImpl grayOps (initializeImpl ⟨[], []⟩) 0 0 ⟨247, .Normal⟩ false).buffer 0 0 = 1 := by
    rw [storedField_setPixelImpl grayOps (initializeImpl ⟨[], []⟩) 0 0 ⟨247, .Normal⟩ false
      (by decide) (by decide) rfl (initializeImpl_length _) (by rw [hlev]; decide), hlev]
  refine ⟨hf, ?_, by decide⟩
  rw [pixelImpl_eq grayOps _ 0 0 (by decide) (by decide), hf]
  decide

/-- Claim C17, amended. For every in-range `(x, y)` and every display state, `pixelImpl`
returns the luminance obtained by extracting the five-bit stored field `f`, rescaling it as
`f*255/31` truncated to a byte, and complementing that byte: `255 - f*255/31`. This equals
the complement-then-rescale value `(31 - f)*255/31` for `f = 0` and `f = 31` and is one more
for every other field. The colour operations are any for which the colour built from a
luminance byte has that luminance. -/
theorem unpack_formula (ops : ColorOps C) (self : GDisplayMaschineMK1) (x y : Nat)
    (hmono : ∀ v, v < 256 → ops.mono (ops.ofMono v) = v)
    (hx : x < 255) (hy : y < 64) :
    storedField self.buffer x y ≤ 31 ∧
    pixelImpl ops self x y = ops.ofMono (255 - storedField self.buffer x y * 255 / 31) ∧
    ops.mono (pixelImpl ops self x y) = 255 - storedField self.buffer x y * 255 / 31 ∧
    ((storedField self.buffer x y = 0 ∨ storedField self.buffer x y = 31) →
      ops.mono (pixelImpl ops self x y) = unpackAsSpecified (storedField self.buffer x y)) ∧
    (0 < storedField self.buffer x y → storedField self.buffer x y < 31 →
      ops.mono (pixelImpl ops self x y) =
        unpackAsSpecified (storedField self.buffer x y) + 1) := by
  have hle := storedField_le self.buffer x y
  obtain ⟨h1, -, h3, h4⟩ := unpack_facts _ (Nat.lt_succ_of_le hle)
  have hp := pixelImpl_eq ops self x y hx hy
  have hm : ops.mono (pixelImpl ops self x y) = toLuminance (storedField self.buffer x y) := by
    rw [hp, hmono _ (toLuminance_lt _)]
  refine ⟨hle, by rw [hp, h1], by rw [hm, h1], ?_, ?_⟩
  · intro h
    rw [hm]
    exact h3 h
  · intro ha hb
    rw [hm]
    exact h4 ha hb

theorem unpack_formula_witness :
    grayOps.mono (pixelImpl grayOps blackSentDisplay 7 9) =
      255 - storedField blackSentDisplay.buffer 7 9 * 255 / 31 :=
  (unpack_formula grayOps blackSentDisplay 7 9 (fun _ _ => rfl) (by decide) (by decide)).2.2.1

/-! ### Writing back the decoded colour -/

theorem rewrite_byte_0 : ∀ b, b < 256 →
    packByte b 0xF8 ((31 - (b &&& 0xF8) >>> 3) <<< 3) = b := by
  decide

theorem rewrite_byte_1_high : ∀ b, b < 256 → ∀ l, l < 4 →
    packByte b 0x07 ((31 - ((b &&& 0x07) <<< 2 ||| l)) >>> 2) = b := by
  decide

theorem rewrite_byte_1_low : ∀ b, b < 256 → ∀ h, h < 8 →
    packByte b 0xC0 ((31 - (h <<< 2 ||| (b &&& 0xC0) >>> 6)) <<< 6) = b := by
  decide

theorem rewrite_byte_2 : ∀ b, b < 256 → packByte b 0x1F (31 - (b &&& 0x1F)) = b := by
  decide

theorem field_parts_lt (b0 b1 : Nat) : b0 &&& 0x07 < 8 ∧ (b1 &&& 0xC0) >>> 6 < 4 := by
  have h1 : b0 &&& 0x07 ≤ 0x07 := Nat.and_le_right
  have h2 : b1 &&& 0xC0 ≤ 0xC0 := Nat.and_le_right
  rw [Nat.shiftRight_eq_div_pow]
  omega

/-- The buffer is unchanged by an accepted write that packs the complement of the field
already stored. -/
theorem setPixelImpl_buffer_same (ops : ColorOps C) (self : GDisplayMaschineMK1) (x y : Nat)
    (c : C) (d : Bool) (hx : x < width) (hy : y < height)
    (hlen : self.buffer.length = canvasWidthInBytesImpl * height)
    (hbytes : ∀ b ∈ self.buffer, b < 256)
    (hv : ops.transparent c = false →
      packedLevel ops (pixelImpl ops self x y) c = 31 - storedField self.buffer x y) :
    (setPixelImpl ops self x y c d).buffer = self.buffer := by
  by_cases ht : ops.transparent c = true
  · simp [setPixelImpl, ht]
  · have ht0 : ops.transparent c = false := by simpa using ht
    have h3 : x % 3 = 0 ∨ x % 3 = 1 ∨ x % 3 = 2 := by omega
    apply ext_getD _ _ (length_setPixelImpl ops self x y c d)
    intro j
    rw [getD_setPixelImpl ops self x y c d j hx hy ht0 hlen, hv ht0]
    have hb0 := getD_lt_of_bytes self.buffer hbytes (canvasWidthInBytes * y + x / 3 * 2)
    have hb1 := getD_lt_of_bytes self.buffer hbytes (canvasWidthInBytes * y + x / 3 * 2 + 1)
    obtain ⟨hp0, hp1⟩ := field_parts_lt
      (self.buffer.getD (canvasWidthInBytes * y + x / 3 * 2) 0)
      (self.buffer.getD (canvasWidthInBytes * y + x / 3 * 2 + 1) 0)
    rcases h3 with h | h | h
    · simp only [storedField, h]
      split
      · rename_i hj
        rw [hj]
        exact rewrite_byte_0 _ hb0
      · rfl
    · simp only [storedField, h]
      split
      · rename_i hj
        rw [hj]
        exact rewrite_byte_1_high _ hb0 _ hp1
      · split
        · rename_i hj
          rw [hj]
          exact rewrite_byte_1_low _ hb1 _ hp0
        · rfl
    · simp only [storedField, h]
      split
      · rename_i hj
        rw [hj]
        exact rewrite_byte_2 _ hb1
      · rfl

/-- Claim C19 (packing is reversible on the five-bit domain). For every in-range `(x, y)` and
every buffer of the initialized size holding bytes: writing back the colour that `pixelImpl`
returns, with no invert blend mode, stores the same field again and leaves every buffer byte
as it was, so the colour read afterwards is the colour read before; and for each of the 32
field values `f` the level packed for the decoded luminance is `31 - f`. The colour operations
are any for which the colour built from a luminance byte has that luminance. -/
theorem packing_reversible (ops : ColorOps C) (self : GDisplayMaschineMK1) (x y : Nat)
    (d : Bool)
    (hmono : ∀ v, v < 256 → ops.mono (ops.ofMono v) = v)
    (hx : x < 255) (hy : y < 64)
    (hlen : self.buffer.length = canvasWidthInBytesImpl * height)
    (hbytes : ∀ b ∈ self.buffer, b < 256)
    (hb : ops.blendModeIsInvert (pixelImpl ops self x y) = false) :
    storedField (setPixelImpl ops self x y (pixelImpl ops self x y) d).buffer x y =
      storedField self.buffer x y ∧
    (setPixelImpl ops self x y (pixelImpl ops self x y) d).buffer = self.buffer ∧
    pixelImpl ops (setPixelImpl ops self x y (pixelImpl ops self x y) d) x y =
      pixelImpl ops self x y ∧
    (∀ f, f ≤ 31 → toLevel (toLuminance f) = 31 - f) := by
  have hle := storedField_le self.buffer x y
  have hlev : packedLevel ops (pixelImpl ops self x y) (pixelImpl ops self x y) =
      31 - storedField self.buffer x y := by
    have h1 : packedLevel ops (pixelImpl ops self x y) (pixelImpl ops self x y) =
        toLevel (ops.mono (pixelImpl ops self x y)) := by
      simp [packedLevel, hb]
    rw [h1, pixelImpl_eq ops self x y hx hy, hmono _ (toLuminance_lt _)]
    exact (unpack_facts _ (Nat.lt_succ_of_le hle)).2.1
  have hbuf := setPixelImpl_buffer_same ops self x y (pixelImpl ops self x y) d hx hy hlen
    hbytes (fun _ => hlev)
  refine ⟨by rw [hbuf], hbuf, ?_, fun f hf => (unpack_facts f (Nat.lt_succ_of_le hf)).2.1⟩
  exact pixelImpl_congr ops self _ x y (by rw [hbuf]) (by rw [hbuf])

theorem initializeImpl_bytes (self : GDisplayMaschineMK1) :
    ∀ b ∈ (initializeImpl self).buffer, b < 256 := by
  intro b hb
  rw [initializeImpl_buffer] at hb
  rw [List.eq_of_mem_replicate hb]
  decide

theorem packing_reversible_witness :
    (setPixelImpl grayOps (initializeImpl ⟨[], []⟩) 100 20
      (pixelImpl grayOps (initializeImpl ⟨[], []⟩) 100 20) true).buffer =
      (initializeImpl ⟨[], []⟩).buffer :=
  (packing_reversible grayOps (initializeImpl ⟨[], []⟩) 100 20 true (fun _ _ => rfl)
    (by decide) (by decide) (initializeImpl_length _) (initializeImpl_bytes _)
    (by rw [pixelImpl_eq grayOps _ 100 20 (by decide) (by decide)]; rfl)).2.1

/-! ### The frame of a write -/

theorem level_keeps_outside : ∀ v, v < 32 →
    (not8 (v <<< 3) &&& 0x07 = 0x07 ∧ not8 (v >>> 2) &&& 0xF8 = 0xF8 ∧
      not8 (v <<< 6) &&& 0x3F = 0x3F ∧ not8 v &&& 0xE0 = 0xE0) ∧
    (not8 (v <<< 6) &&& 0x1F = 0x1F ∧ not8 v &&& 0xC0 = 0xC0) := by
  decide

theorem packedLevel_lt (ops : ColorOps C) (old c : C) (hL : ops.mono c ≤ 255)
    (hLi : ops.mono (ops.invert old) ≤ 255) : packedLevel ops old c < 32 := by
  unfold packedLevel
  split
  · exact toLevel_lt _ hLi
  · exact toLevel_lt _ hL

/-- The bits outside the written field in the two bytes at the pixel's byte index. -/
theorem setPixelImpl_outside_bits (ops : ColorOps C) (self : GDisplayMaschineMK1) (x y : Nat)
    (c : C) (d : Bool) (hx : x < width) (hy : y < height)
    (hlen : self.buffer.length = canvasWidthInBytesImpl * height)
    (hv : packedLevel ops (pixelImpl ops self x y) c < 32) :
    (x % 3 = 0 →
      (setPixelImpl ops self x y c d).buffer.getD (canvasWidthInBytes * y + x / 3 * 2) 0
        &&& 0x07 = self.buffer.getD (canvasWidthInBytes * y + x / 3 * 2) 0 &&& 0x07) ∧
    (x % 3 = 1 →
      (setPixelImpl ops self x y c d).buffer.getD (canvasWidthInBytes * y + x / 3 * 2) 0
        &&& 0xF8 = self.buffer.getD (canvasWidthInBytes * y + x / 3 * 2) 0 &&& 0xF8 ∧
      (setPixelImpl ops self x y c d).buffer.getD (canvasWidthInBytes * y + x / 3 * 2 + 1) 0
        &&& 0x3F = self.buffer.getD (canvasWidthInBytes * y + x / 3 * 2 + 1) 0 &&& 0x3F ∧
      (setPixelImpl ops self x y c d).buffer.getD (canvasWidthInBytes * y + x / 3 * 2 + 1) 0
        &&& 0x1F = self.buffer.getD (canvasWidthInBytes * y + x / 3 * 2 + 1) 0 &&& 0x1F) ∧
    (x % 3 = 2 →
      (setPixelImpl ops self x y c d).buffer.getD (canvasWidthInBytes * y + x / 3 * 2 + 1) 0
        &&& 0xE0 = self.buffer.getD (canvasWidthInBytes * y + x / 3 * 2 + 1) 0 &&& 0xE0 ∧
      (setPixelImpl ops self x y c d).buffer.getD (canvasWidthInBytes * y + x / 3 * 2 + 1) 0
        &&& 0xC0 = self.buffer.getD (canvasWidthInBytes * y + x / 3 * 2 + 1) 0 &&& 0xC0) := by
  by_cases ht : ops.transparent c = true
  · simp [setPixelImpl, ht]
  · have ht0 : ops.transparent c = false := by simpa using ht
    obtain ⟨⟨k0, k1, k2, k3⟩, k4, k5⟩ := level_keeps_outside _ hv
    refine ⟨?_, ?_, ?_⟩
    · intro h
      rw [getD_setPixelImpl ops self x y c d _ hx hy ht0 hlen]
      simp only [h, if_true]
      exact packByte_keep _ _ _ _ (by decide) (by decide) k0
    · intro h
      rw [getD_setPixelImpl ops self x y c d _ hx hy ht0 hlen,
        getD_setPixelImpl ops self x y c d _ hx hy ht0 hlen]
      simp only [h, if_true]
      rw [if_neg (by omega)]
      exact ⟨packByte_keep _ _ _ _ (by decide) (by decide) k1,
        packByte_keep _ _ _ _ (by decide) (by decide) k2,
        packByte_keep _ _ _ _ (by decide) (by decide) k4⟩
    · intro h
      rw [getD_setPixelImpl ops self x y c d _ hx hy ht0 hlen]
      simp only [h, if_true]
      exact ⟨packByte_keep _ _ _ _ (by decide) (by decide) k3,
        packByte_keep _ _ _ _ (by decide) (by decide) k5⟩

/-- A write at `(x, y)` leaves the field of every other in-range pixel as it was. -/
theorem storedField_other_pixel (ops : ColorOps C) (self : GDisplayMaschineMK1)
    (x y x' y' : Nat) (c : C) (d : Bool) (hx : x < width) (hy : y < height)
    (hx' : x' < width) (hne : (x', y') ≠ (x, y))
    (hlen : self.buffer.length = canvasWidthInBytesImpl * height)
    (hv : packedLevel ops (pixelImpl ops self x y) c < 32) :
    storedField (setPixelImpl ops self x y c d).buffer x' y' = storedField self.buffer x' y' := by
  have hw : width = 255 := rfl
  have hh : height = 64 := rfl
  have hcw := canvasWidthInBytes_eq
  by_cases hg : x' / 3 = x / 3 ∧ y' = y
  · obtain ⟨hg1, hg2⟩ := hg
    subst hg2
    have hxx : x' ≠ x := fun h => hne (by rw [h])
    obtain ⟨o0, o1, o2⟩ := setPixelImpl_outside_bits ops self x y' c d hx hy hlen hv
    have hsame : ∀ j, (x % 3 = 2 ∨ j ≠ canvasWidthInBytes * y' + x / 3 * 2) →
        (x % 3 = 0 ∨ j ≠ canvasWidthInBytes * y' + x / 3 * 2 + 1) →
        (setPixelImpl ops self x y' c d).buffer.getD j 0 = self.buffer.getD j 0 :=
      fun j => setPixelImpl_other_bytes ops self x y' c d j hx hy hlen
    have h3 : x % 3 = 0 ∨ x % 3 = 1 ∨ x % 3 = 2 := by omega
    have h3' : x' % 3 = 0 ∨ x' % 3 = 1 ∨ x' % 3 = 2 := by omega
    rcases h3 with h | h | h <;> rcases h3' with h' | h' | h'
    · omega
    · simp only [storedField, h', hg1]
      rw [o0 h, hsame _ (Or.inr (by omega)) (Or.inl h)]
    · simp only [storedField, h', hg1]
      rw [hsame _ (Or.inr (by omega)) (Or.inl h)]
    · simp only [storedField, h', hg1]
      rw [(o1 h).1]
    · omega
    · simp only [storedField, h', hg1]
      rw [(o1 h).2.2]
    · simp only [storedField, h', hg1]
      rw [hsame _ (Or.inl h) (Or.inr (by omega))]
    · simp only [storedField, h', hg1]
      rw [hsame _ (Or.inl h) (Or.inr (by omega)), (o2 h).2]
    · omega
  · have hg' : x' / 3 ≠ x / 3 ∨ y' ≠ y := by
      by_contra hcon
      exact hg ⟨by omega, by omega⟩
    have e0 : (setPixelImpl ops self x y c d).buffer.getD
        (canvasWidthInBytes * y' + x' / 3 * 2) 0 =
        self.buffer.getD (canvasWidthInBytes * y' + x' / 3 * 2) 0 :=
      setPixelImpl_other_bytes ops self x y c d _ hx hy hlen
        (Or.inr (by rw [hcw]; omega)) (Or.inr (by rw [hcw]; omega))
    have e1 : (setPixelImpl ops self x y c d).buffer.getD
        (canvasWidthInBytes * y' + x' / 3 * 2 + 1) 0 =
        self.buffer.getD (canvasWidthInBytes * y' + x' / 3 * 2 + 1) 0 :=
      setPixelImpl_other_bytes ops self x y c d _ hx hy hlen
        (Or.inr (by rw [hcw]; omega)) (Or.inr (by rw [hcw]; omega))
    simp only [storedField, e0, e1]

/-- Claim C16 (packing touches only its own field). For every in-range `(x, y)`, every buffer
of the initialized size and every colour whose packed luminance is a byte, a write at
`(x, y)` leaves unchanged: every byte other than the two at the pixel's byte index `i`; for
`x mod 3 = 0` bits 2-0 of byte `i` and all of byte `i + 1`; for `x mod 3 = 1` bits 7-3 of byte
`i` and bits 5-0 of byte `i + 1`; for `x mod 3 = 2` all of byte `i` and bits 7-5 of byte
`i + 1`. Consequently the colour read at every other in-range pixel, in the same row or in
another, is unchanged. -/
theorem packing_touches_only_own_field (ops : ColorOps C) (self : GDisplayMaschineMK1)
    (x y x' y' j : Nat) (c : C) (d : Bool)
    (hx : x < 255) (hy : y < 64)
    (hlen : self.buffer.length = canvasWidthInBytesImpl * height)
    (hL : ops.mono c ≤ 255)
    (hLi : ops.mono (ops.invert (pixelImpl ops self x y)) ≤ 255) :
    (j ≠ canvasWidthInBytes * y + x / 3 * 2 → j ≠ canvasWidthInBytes * y + x / 3 * 2 + 1 →
      (setPixelImpl ops self x y c d).buffer.getD j 0 = self.buffer.getD j 0) ∧
    (x % 3 = 0 →
      (setPixelImpl ops self x y c d).buffer.getD (canvasWidthInBytes * y + x / 3 * 2) 0
        &&& 0x07 = self.buffer.getD (canvasWidthInBytes * y + x / 3 * 2) 0 &&& 0x07 ∧
      (setPixelImpl ops self x y c d).buffer.getD (canvasWidthInBytes * y + x / 3 * 2 + 1) 0
        = self.buffer.getD (canvasWidthInBytes * y + x / 3 * 2 + 1) 0) ∧
    (x % 3 = 1 →
      (setPixelImpl ops self x y c d).buffer.getD (canvasWidthInBytes * y + x / 3 * 2) 0
        &&& 0xF8 = self.buffer.getD (canvasWidthInBytes * y + x / 3 * 2) 0 &&& 0xF8 ∧
      (setPixelImpl ops self x y c d).buffer.getD (canvasWidthInBytes * y + x / 3 * 2 + 1) 0
        &&& 0x3F = self.buffer.getD (canvasWidthInBytes * y + x / 3 * 2 + 1) 0 &&& 0x3F) ∧
    (x % 3 = 2 →
      (setPixelImpl ops self x y c d).buffer.getD (canvasWidthInBytes * y + x / 3 * 2) 0
        = self.buffer.getD (canvasWidthInBytes * y + x / 3 * 2) 0 ∧
      (setPixelImpl ops self x y c d).buffer.getD (canvasWidthInBytes * y + x / 3 * 2 + 1) 0
        &&& 0xE0 = self.buffer.getD (canvasWidthInBytes * y + x / 3 * 2 + 1) 0 &&& 0xE0) ∧
    (x' < 255 → y' < 64 → (x', y') ≠ (x, y) →
      pixelImpl ops (setPixelImpl ops self x y c d) x' y' = pixelImpl ops self x' y') := by
  have hv := packedLevel_lt ops (pixelImpl ops self x y) c hL hLi
  obtain ⟨o0, o1, o2⟩ := setPixelImpl_outside_bits ops self x y c d hx hy hlen hv
  refine ⟨?_, ?_, ?_, ?_, ?_⟩
  · intro h0 h1
    exact setPixelImpl_other_bytes ops self x y c d j hx hy hlen (Or.inr h0) (Or.inr h1)
  · intro h
    exact ⟨o0 h, setPixelImpl_other_bytes ops self x y c d _ hx hy hlen
      (Or.inr (by omega)) (Or.inl h)⟩
  · intro h
    exact ⟨(o1 h).1, (o1 h).2.1⟩
  · intro h
    exact ⟨setPixelImpl_other_bytes ops self x y c d _ hx hy hlen
      (Or.inl h) (Or.inr (by omega)), (o2 h).1⟩
  · intro hx' hy' hne
    rw [pixelImpl_eq ops _ x' y' hx' hy', pixelImpl_eq ops _ x' y' hx' hy',
      storedField_other_pixel ops self x y x' y' c d hx hy hx' hne hlen hv]

theorem packing_touches_only_own_field_witness :
    pixelImpl grayOps
      (setPixelImpl grayOps (initializeImpl ⟨[], []⟩) 100 20 ⟨200, .Normal⟩ true) 101 20 =
      pixelImpl grayOps (initializeImpl ⟨[], []⟩) 101 20 ∧
    pixelImpl grayOps
      (setPixelImpl grayOps (initializeImpl ⟨[], []⟩) 100 20 ⟨200, .Invert⟩ true) 100 21 =
      pixelImpl grayOps (initializeImpl ⟨[], []⟩) 100 21 :=
  ⟨(packing_touches_only_own_field grayOps (initializeImpl ⟨[], []⟩) 100 20 101 20 0
      ⟨200, .Normal⟩ true (by decide) (by decide) (initializeImpl_length _) (by decide)
      (by simp [grayOps])).2.2.2.2 (by decide) (by decide) (by decide),
   (packing_touches_only_own_field grayOps (initializeImpl ⟨[], []⟩) 100 20 100 21 0
      ⟨200, .Invert⟩ true (by decide) (by decide) (initializeImpl_length _) (by decide)
      (by simp [grayOps])).2.2.2.2 (by decide) (by decide) (by decide)⟩

end GDisplayMaschineMK1
end cabl

end sl
